import Mathlib

/-!
Verification of the `scripts/unified` analysis pipeline of the
renderdoc-analyzer repository.

The repository drives an external replay engine: a capture exposes a tree of
`Action` nodes (draws, dispatches, clears, copies, markers), and the unified
scheduler (`scripts/unified/analyze_all.py`) traverses that tree once, calling
each enabled analyzer module (`scripts/unified/analyzers/*.py`) on every
draw/dispatch action.  This file shallowly embeds the data model and the
relevant functions:

* the action tree and its flag classification;
* `AnalysisScheduler.run_static_analyzers` / `run_iteration_analyzers`
  (modelled as trace-producing functions; analyzer behaviour is abstracted by
  failure oracles, since the scheduler treats analyzers opaquely);
* the concrete analyzers `BasicStatsAnalyzer`, `MemoryAnalyzer`,
  `VertexAttributeAnalyzer`, `ShaderBindingAnalyzer`, `OverdrawAnalyzer`
  (their `analyze` / `analyze_action` state updates);
* the helper `format_bytes` from `analyzers/base.py`
  (Python float arithmetic is modelled with exact rationals; the final
  two-decimal string rendering of the scaled number is abstracted — the model
  returns the scaled number together with the chosen unit);
* `AnalysisScheduler.start_timeout`, which creates the timeout timer thread.

Machine integers do not overflow in any of these code paths (Python has
arbitrary-precision integers), so counters are modelled as `Nat`.
-/

namespace RDA

/-- Flag classification of an action.  In the external library
`ActionFlags` is a bit mask; the repository only ever tests the five bits
below (`flags & int(rd.ActionFlags.X)`), and the bit values are owned by the
external library, so the mask is modelled as one Boolean per tested bit. -/
structure ActionFlags where
  drawcall : Bool
  dispatch : Bool
  clear : Bool
  copy : Bool
  pushMarker : Bool
deriving DecidableEq, Repr

/-- An `ActionDescription` node of the command tree: the repository reads
`eventId`, `flags`, `numIndices`, `numInstances` and `children`.
`numIndices` / `numInstances` are read behind `hasattr` guards, hence
`Option`. -/
inductive Action where
  | mk (eventId : Nat) (flags : ActionFlags) (numIndices : Option Nat)
      (numInstances : Option Nat) (children : List Action)

def Action.eventId : Action → Nat
  | .mk e _ _ _ _ => e

def Action.flags : Action → ActionFlags
  | .mk _ f _ _ _ => f

def Action.numIndices : Action → Option Nat
  | .mk _ _ n _ _ => n

def Action.numInstances : Action → Option Nat
  | .mk _ _ _ n _ => n

def Action.children : Action → List Action
  | .mk _ _ _ _ cs => cs

/-- Model of `flags & Drawcall or flags & Dispatch`, the test the scheduler uses to
decide whether an action is replayed and analyzed. -/
def isDrawDispatch (f : ActionFlags) : Bool :=
  f.drawcall || f.dispatch

mutual
/-- Event ids of all nodes of a subtree, in visit (preorder) order. -/
def preorderA : Action → List Nat
  | .mk e _ _ _ cs => e :: preorderL cs

/-- Event ids of all nodes of a forest, in visit (preorder) order. -/
def preorderL : List Action → List Nat
  | [] => []
  | a :: as => preorderA a ++ preorderL as
end

mutual
/-- Number of nodes of a subtree. -/
def numNodesA : Action → Nat
  | .mk _ _ _ _ cs => 1 + numNodesL cs

/-- Number of nodes of a forest. -/
def numNodesL : List Action → Nat
  | [] => 0
  | a :: as => numNodesA a + numNodesL as
end

mutual
/-- Event ids of the draw/dispatch nodes of a subtree, in visit order. -/
def ddA : Action → List Nat
  | .mk e f _ _ cs => if isDrawDispatch f then e :: ddL cs else ddL cs

/-- Event ids of the draw/dispatch nodes of a forest, in visit order. -/
def ddL : List Action → List Nat
  | [] => []
  | a :: as => ddA a ++ ddL as
end

mutual
/-- Number of nodes of a subtree whose flags satisfy `p`. -/
def cntA (p : ActionFlags → Bool) : Action → Nat
  | .mk _ f _ _ cs => (if p f then 1 else 0) + cntL p cs

/-- Number of nodes of a forest whose flags satisfy `p`. -/
def cntL (p : ActionFlags → Bool) : List Action → Nat
  | [] => 0
  | a :: as => cntA p a + cntL p as
end

mutual
/-- Depth of the deepest node of a subtree, counting the root as depth 0. -/
def maxDepthA : Action → Nat
  | .mk _ _ _ _ cs => maxDepthChildren cs

/-- One plus the deepest relative depth among a list of child subtrees
(`0` when there are no children). -/
def maxDepthChildren : List Action → Nat
  | [] => 0
  | a :: as => max (1 + maxDepthA a) (maxDepthChildren as)
end

/-- Maximum absolute depth over all nodes of a forest whose roots sit at
depth `depth` (`0` for the empty forest). -/
def maxDepthAt (depth : Nat) : List Action → Nat
  | [] => 0
  | a :: as => max (depth + maxDepthA a) (maxDepthAt depth as)

/-- Maximum nesting depth over a forest of root actions, the roots sitting at
depth 0 (`0` for the empty forest). -/
def maxDepthF (roots : List Action) : Nat :=
  maxDepthAt 0 roots

/-! ## The unified scheduler (`AnalysisScheduler`, analyze_all.py)

`run_iteration_analyzers` is modelled as a trace-producing function.  A trace
event records one externally visible step of the loop body `process_action`:

* `visit e` — `process_action` entered on the node with event id `e`;
* `replay e` — `controller.SetFrameEvent(e, False)` followed by
  `controller.GetPipelineState()` (the request to re-execute up to `e`);
* `call m e` — `analyzer.analyze_action(action, pipe)` invoked for module
  `m` at the node with event id `e`;
* `fin m` — `analyzer.finalize()` invoked for module `m`.

Analyzer behaviour is abstract: `actFails m e` tells whether module `m`'s
`analyze_action` raises at event `e`, and `replayFails e` whether
`SetFrameEvent`/`GetPipelineState` raises at event `e`.  `self.errors` is the
list of module ids with a recorded error.  The timeout flag is not modelled:
all statements below describe runs in which no timeout fires
(`self.timed_out` stays `False`). -/

inductive Ev where
  | visit (eid : Nat)
  | replay (eid : Nat)
  | call (modId : String) (eid : Nat)
  | fin (modId : String)
deriving DecidableEq, Repr

/-- The inner `for mod_id, mod_name, analyzer in iter_analyzers` loop of
`process_action`: modules already in `self.errors` are skipped; otherwise
`analyze_action` is invoked, and a raising module is added to
`self.errors` (`self.errors[mod_id] = "analyze_action 失败: …"`). -/
def callAnalyzers (actFails : String → Nat → Bool) (eid : Nat) :
    List String → List String → List Ev × List String
  | [], errors => ([], errors)
  | m :: ms, errors =>
    if m ∈ errors then
      callAnalyzers actFails eid ms errors
    else
      let r := callAnalyzers actFails eid ms
        (if actFails m eid then errors ++ [m] else errors)
      (Ev.call m eid :: r.1, r.2)

mutual
/-- Model of `process_action` of `run_iteration_analyzers`: on a draw/dispatch node
the scheduler replays to the event (an exception there skips the rest of the
body, children included, via `return`), then calls every not-yet-failed
analyzer; finally it recurses into `action.children`. -/
def process_action (actFails : String → Nat → Bool) (replayFails : Nat → Bool)
    (mods : List String) : Action → List String → List Ev × List String
  | .mk eid f _ _ children, errors =>
    if isDrawDispatch f then
      if replayFails eid then
        ([Ev.visit eid, Ev.replay eid], errors)
      else
        let c := callAnalyzers actFails eid mods errors
        let k := processChildren actFails replayFails mods children c.2
        (Ev.visit eid :: Ev.replay eid :: (c.1 ++ k.1), k.2)
    else
      let k := processChildren actFails replayFails mods children errors
      (Ev.visit eid :: k.1, k.2)

/-- Sequential processing of a list of actions (the `for child in
action.children` loop, and the top-level `for action in
controller.GetRootActions()` loop). -/
def processChildren (actFails : String → Nat → Bool) (replayFails : Nat → Bool)
    (mods : List String) : List Action → List String → List Ev × List String
  | [], errors => ([], errors)
  | a :: as, errors =>
    let r := process_action actFails replayFails mods a errors
    let s := processChildren actFails replayFails mods as r.2
    (r.1 ++ s.1, s.2)
end

/-- The loop after the traversal: every iteration analyzer whose id carries a
recorded `analyze_action` error is skipped (`status: partial`), every other
one gets `finalize()` (followed by `analyze()`).  During
`run_iteration_analyzers` the entries added to `self.errors` are exactly the
`analyze_action` failures, so the skip test is membership in the error
list. -/
def finalizeLoop (mods : List String) (errors : List String) : List Ev :=
  mods.filterMap (fun m => if m ∈ errors then none else some (Ev.fin m))

/-- Model of `AnalysisScheduler.run_iteration_analyzers`, restricted to its externally
visible steps: one traversal of the root actions starting from an empty
`analyze_action` error set, then the finalize loop.  Returns the event trace
and the final error set. -/
def run_iteration_analyzers (actFails : String → Nat → Bool)
    (replayFails : Nat → Bool) (mods : List String) (roots : List Action) :
    List Ev × List String :=
  let t := processChildren actFails replayFails mods roots []
  (t.1 ++ finalizeLoop mods t.2, t.2)

/-- Module result status recorded by the scheduler (`self.results`). -/
inductive Status where
  | success
  | error
deriving DecidableEq, Repr

/-- Model of `AnalysisScheduler.run_static_analyzers` (no timeout): analyzers flagged
`needs_iteration` are skipped; each remaining analyzer's `analyze()` runs
under `try`/`except`, recording `status: success` or `status: error` for that
module and continuing with the next one either way.  `staticFails m` tells
whether module `m`'s `analyze()` raises.  Input pairs are
`(module id, needs_iteration)` in `ALL_ANALYZERS` order. -/
def run_static_analyzers (staticFails : String → Bool) :
    List (String × Bool) → List (String × Status)
  | [] => []
  | (m, needsIter) :: rest =>
    if needsIter then
      run_static_analyzers staticFails rest
    else
      (m, if staticFails m then Status.error else Status.success) ::
        run_static_analyzers staticFails rest

/-- Event ids of the `visit` events of a trace, in order. -/
def visitsOf (t : List Ev) : List Nat :=
  t.filterMap (fun e => match e with | Ev.visit i => some i | _ => none)

/-- Event ids of the `replay` events of a trace, in order. -/
def replaysOf (t : List Ev) : List Nat :=
  t.filterMap (fun e => match e with | Ev.replay i => some i | _ => none)

/-- Event ids at which module `m`'s `analyze_action` was invoked, in order. -/
def callsOf (m : String) (t : List Ev) : List Nat :=
  t.filterMap (fun e => match e with
    | Ev.call m2 i => if m2 = m then some i else none
    | _ => none)

/-- Module ids of the `finalize()` invocations of a trace, in order. -/
def finsOf (t : List Ev) : List String :=
  t.filterMap (fun e => match e with | Ev.fin m => some m | _ => none)

/-- The draw/dispatch events module `m` is called on, given that its
`analyze_action` raises at the events selected by `actFails`: all of them up
to and including the first failing one, none afterwards. -/
def callsUpToFail (actFails : String → Nat → Bool) (m : String) :
    List Nat → List Nat
  | [] => []
  | e :: es => e :: if actFails m e then [] else callsUpToFail actFails m es

/-! ## BasicStatsAnalyzer (analyzers/basic_stats.py)

`analyze` initialises all counters to 0 and runs its own recursive
`count_actions` over `controller.GetRootActions()`. -/

/-- The `self.results` dictionary of `BasicStatsAnalyzer`. -/
structure BasicStats where
  draw_count : Nat
  dispatch_count : Nat
  clear_count : Nat
  copy_count : Nat
  marker_count : Nat
  total_actions : Nat
  max_depth : Nat
deriving DecidableEq, Repr

/-- The zero-initialised `self.results` of `BasicStatsAnalyzer.analyze`. -/
def initBasicStats : BasicStats :=
  ⟨0, 0, 0, 0, 0, 0, 0⟩

mutual
/-- Model of `count_actions(action, depth)` of `BasicStatsAnalyzer.analyze`:
increments `total_actions`, raises `max_depth` to `depth`, increments one
counter per flag bit present, then recurses into the children at
`depth + 1`. -/
def count_actions (depth : Nat) (r : BasicStats) : Action → BasicStats
  | .mk _ f _ _ cs =>
    let r := { r with total_actions := r.total_actions + 1 }
    let r := { r with max_depth := max r.max_depth depth }
    let r := if f.drawcall then { r with draw_count := r.draw_count + 1 } else r
    let r := if f.dispatch then { r with dispatch_count := r.dispatch_count + 1 } else r
    let r := if f.clear then { r with clear_count := r.clear_count + 1 } else r
    let r := if f.copy then { r with copy_count := r.copy_count + 1 } else r
    let r := if f.pushMarker then { r with marker_count := r.marker_count + 1 } else r
    countActionsList (depth + 1) r cs

/-- The `for child in action.children` loop of `count_actions`. -/
def countActionsList (depth : Nat) (r : BasicStats) : List Action → BasicStats
  | [] => r
  | a :: as => countActionsList depth (count_actions depth r a) as
end

/-- Model of `BasicStatsAnalyzer.analyze`: fresh counters, then `count_actions` on
each root action at depth 0. -/
def basicStatsAnalyze (roots : List Action) : BasicStats :=
  countActionsList 0 initBasicStats roots

/-! ## MemoryAnalyzer (analyzers/memory.py) -/

/-- The fields of a `TextureDescription` read by `MemoryAnalyzer.analyze`.
`byteSize` and `name` sit behind `hasattr` guards, hence `Option`
(`name` also treats the empty string as absent: `tex.name if hasattr and
tex.name else default`); `format` is abstracted to the display name the code
derives from it (`tex.format.Name()` or `str(tex.format)`). -/
structure Texture where
  resourceId : Nat
  byteSize : Option Nat
  format : String
  width : Nat
  height : Nat
  depth : Nat
  mips : Nat
  name : Option String
deriving DecidableEq, Repr

/-- The fields of a `BufferDescription` read by `MemoryAnalyzer.analyze`. -/
structure Buffer where
  resourceId : Nat
  length : Option Nat
  name : Option String
deriving DecidableEq, Repr

/-- One entry of `results['large_textures']`. -/
structure LargeTexture where
  id : String
  name : String
  size : Nat
  format : String
  dimensions : String
  mips : Nat
deriving DecidableEq, Repr

/-- One entry of `results['large_buffers']`. -/
structure LargeBuffer where
  id : String
  name : String
  size : Nat
deriving DecidableEq, Repr

/-- The `self.results` dictionary of `MemoryAnalyzer.analyze`.
`texture_formats` is the `defaultdict` keyed by format name with per-format
`(count, size)`. -/
structure MemoryResults where
  texture_count : Nat
  texture_size : Nat
  buffer_count : Nat
  buffer_size : Nat
  total_size : Nat
  texture_formats : List (String × Nat × Nat)
  large_textures : List LargeTexture
  large_buffers : List LargeBuffer
deriving DecidableEq, Repr

/-- Model of `texture_formats[fmt_name]['count'] += 1; …['size'] += size` on the
`defaultdict(lambda: {'count': 0, 'size': 0})`. -/
def bumpFormat (fmt : String) (size : Nat) :
    List (String × Nat × Nat) → List (String × Nat × Nat)
  | [] => [(fmt, 1, size)]
  | (k, c, s) :: rest =>
    if k = fmt then (k, c + 1, s + size) :: rest
    else (k, c, s) :: bumpFormat fmt size rest

/-- Model of `size = tex.byteSize if hasattr(tex, 'byteSize') else 0`. -/
def texSize (t : Texture) : Nat :=
  t.byteSize.getD 0

/-- Model of `size = buf.length if hasattr(buf, 'length') else 0`. -/
def bufSize (b : Buffer) : Nat :=
  b.length.getD 0

/-- The `for tex in textures` loop of `MemoryAnalyzer.analyze`, threading
`(texture_size, texture_formats, large_textures)`. -/
def memTexLoop :
    List Texture → Nat × List (String × Nat × Nat) × List LargeTexture →
    Nat × List (String × Nat × Nat) × List LargeTexture
  | [], st => st
  | t :: ts, (sz, fmts, larges) =>
    let s := texSize t
    let fmts := bumpFormat t.format s fmts
    let larges :=
      if 16 * 1024 * 1024 < s then
        larges ++ [{ id := toString t.resourceId,
                     name := t.name.getD ("Texture_" ++ toString t.resourceId),
                     size := s, format := t.format,
                     dimensions := toString t.width ++ "x" ++ toString t.height
                       ++ "x" ++ toString t.depth,
                     mips := t.mips }]
      else larges
    memTexLoop ts (sz + s, fmts, larges)

/-- The `for buf in buffers` loop of `MemoryAnalyzer.analyze`, threading
`(buffer_size, large_buffers)`. -/
def memBufLoop : List Buffer → Nat × List LargeBuffer → Nat × List LargeBuffer
  | [], st => st
  | b :: bs, (sz, larges) =>
    let s := bufSize b
    let larges :=
      if 8 * 1024 * 1024 < s then
        larges ++ [{ id := toString b.resourceId,
                     name := b.name.getD ("Buffer_" ++ toString b.resourceId),
                     size := s }]
      else larges
    memBufLoop bs (sz + s, larges)

/-- Model of `MemoryAnalyzer.analyze`: counts come from `len(controller.GetTextures())`
and `len(controller.GetBuffers())`, the sizes from the two loops,
`total_size` from their sum; the large-resource lists are finally sorted by
size, descending. -/
def memoryAnalyze (textures : List Texture) (buffers : List Buffer) :
    MemoryResults :=
  let t := memTexLoop textures (0, [], [])
  let b := memBufLoop buffers (0, [])
  { texture_count := textures.length
    texture_size := t.1
    buffer_count := buffers.length
    buffer_size := b.1
    total_size := t.1 + b.1
    texture_formats := t.2.1
    large_textures := (t.2.2).mergeSort (fun x y => y.size ≤ x.size)
    large_buffers := (b.2).mergeSort (fun x y => y.size ≤ x.size) }

/-! ## VertexAttributeAnalyzer (analyzers/vertex_attrs.py) -/

/-- Model of `MAX_DETAIL_RECORDS`, set to 50 in the constructor of each iteration
analyzer. -/
def MAX_DETAIL_RECORDS : Nat := 50

/-- One entry of a vertex shader's `inputSignature`; `semanticName` and
`semanticIndex` are read behind `hasattr` guards. -/
structure SigParam where
  semanticName : Option String
  semanticIndex : Option Nat
deriving DecidableEq, Repr

/-- The component layout of a `ResourceFormat`; both fields are behind
`hasattr` guards. -/
structure ResourceFormat where
  compByteWidth : Option Nat
  compCount : Option Nat
deriving DecidableEq, Repr

/-- One input-assembly attribute (`ia.attributes` entry). -/
structure VertexAttr where
  semanticName : Option String
  semanticIndex : Option Nat
  format : Option ResourceFormat
deriving DecidableEq, Repr

/-- The pieces of pipeline state `VertexAttributeAnalyzer.analyze_action`
reads.  `vsRefl = none` models `GetShaderReflection(Vertex)` returning `None`
or raising; `iaAttrs = none` models a missing/`None`/raising `GetIAState`
(when the IA state exists but has no `attributes` field the code falls back
to `[]`, which is `some []` here). -/
structure VSPipe where
  vsRefl : Option (List SigParam)
  iaAttrs : Option (List VertexAttr)
deriving DecidableEq, Repr

/-- One entry of `self.worst_draws` in `VertexAttributeAnalyzer`. -/
structure VAWorst where
  eid : Nat
  vertices : Nat
  wasted_bytes : Nat
  wasted_attrs : List String
deriving DecidableEq, Repr

/-- The mutable state of `VertexAttributeAnalyzer`.  `semantic_stats` is the
`defaultdict` keyed by semantic name with `(provided, used, wasted)`
counters. -/
structure VAState where
  total_draws : Nat
  wasted_draws : Nat
  wasted_bytes : Nat
  wasted_vertices : Nat
  semantic_stats : List (String × Nat × Nat × Nat)
  worst_draws : List VAWorst
deriving DecidableEq, Repr

/-- The constructor state of `VertexAttributeAnalyzer`. -/
def initVAState : VAState :=
  ⟨0, 0, 0, 0, [], []⟩

/-- Model of `self.semantic_stats[name]['provided'] += 1` on the defaultdict. -/
def bumpProvided (key : String) :
    List (String × Nat × Nat × Nat) → List (String × Nat × Nat × Nat)
  | [] => [(key, 1, 0, 0)]
  | (k, p, u, w) :: rest =>
    if k = key then (k, p + 1, u, w) :: rest
    else (k, p, u, w) :: bumpProvided key rest

/-- Model of `self.semantic_stats[name]['used'] += 1` on the defaultdict. -/
def bumpUsed (key : String) :
    List (String × Nat × Nat × Nat) → List (String × Nat × Nat × Nat)
  | [] => [(key, 0, 1, 0)]
  | (k, p, u, w) :: rest =>
    if k = key then (k, p, u + 1, w) :: rest
    else (k, p, u, w) :: bumpUsed key rest

/-- Model of `self.semantic_stats[name]['wasted'] += 1` on the defaultdict. -/
def bumpWasted (key : String) :
    List (String × Nat × Nat × Nat) → List (String × Nat × Nat × Nat)
  | [] => [(key, 0, 0, 1)]
  | (k, p, u, w) :: rest =>
    if k = key then (k, p, u, w + 1) :: rest
    else (k, p, u, w) :: bumpWasted key rest

/-- The full semantic string `f"{sem_name}{sem_idx}"` of a signature entry
with a `semanticName` (index defaulting to 0 when absent). -/
def sigFullName (s : SigParam) : Option String :=
  s.semanticName.map (fun n => n ++ toString (s.semanticIndex.getD 0))

/-- Model of `used_semantics`: the set (as a list) of full semantic strings of the
vertex shader's input signature. -/
def usedSemantics (sig : List SigParam) : List String :=
  sig.filterMap sigFullName

/-- The `for sig in vs_refl.inputSignature` loop's side effect on
`semantic_stats` (one `used` bump per named entry). -/
def addUsedStats : List SigParam →
    List (String × Nat × Nat × Nat) → List (String × Nat × Nat × Nat)
  | [], st => st
  | s :: ss, st =>
    match s.semanticName with
    | none => addUsedStats ss st
    | some n => addUsedStats ss (bumpUsed n st)

/-- Model of `byte_size`: `compByteWidth * compCount` when the attribute's format and
both component fields are available, else the default 4. -/
def attrByteSize (a : VertexAttr) : Nat :=
  match a.format with
  | none => 4
  | some fmt =>
    match fmt.compByteWidth, fmt.compCount with
    | some w, some c => w * c
    | _, _ => 4

/-- The full semantic string `f"{sem_name}{sem_idx}"` of an attribute with a
`semanticName` (index defaulting to 0 when absent). -/
def attrFullName (a : VertexAttr) : Option String :=
  a.semanticName.map (fun n => n ++ toString (a.semanticIndex.getD 0))

/-- The `for attr in attrs` loop of `analyze_action`: skips unnamed
attributes, bumps `provided`, and for attributes whose full semantic string
is not in `used_semantics` bumps `wasted` and accumulates
`(name, byte_size)` into `wasted_attrs` / `wasted_bytes_per_vertex`.
Returns `(wasted_attrs, wasted_bytes_per_vertex, semantic_stats)`. -/
def attrLoop (used : List String) :
    List VertexAttr → List (String × Nat × Nat × Nat) →
    List (String × Nat) × Nat × List (String × Nat × Nat × Nat)
  | [], st => ([], 0, st)
  | a :: as, st =>
    match a.semanticName with
    | none => attrLoop used as st
    | some nm =>
      let full := nm ++ toString (a.semanticIndex.getD 0)
      let st := bumpProvided nm st
      if full ∈ used then attrLoop used as st
      else
        let bs := attrByteSize a
        let r := attrLoop used as (bumpWasted nm st)
        ((nm, bs) :: r.1, bs + r.2.1, r.2.2)

/-- Model of `VertexAttributeAnalyzer.analyze_action(action, pipe)`:
`total_draws` is incremented first; the method returns early when there is
no vertex-shader reflection (after which nothing changed except
`total_draws`) or no IA state (after which the `used` bumps from the
signature loop are already in).  When at least one wasted attribute was
found, `wasted_draws`/`wasted_bytes`/`wasted_vertices` are updated using
`numIndices` (default 0) times `numInstances` (default 1), and draws wasting
more than 100 KiB are recorded into `worst_draws` while that list is shorter
than `MAX_DETAIL_RECORDS`. -/
def vaAnalyzeAction (action : Action) (pipe : VSPipe) (s : VAState) : VAState :=
  let s := { s with total_draws := s.total_draws + 1 }
  match pipe.vsRefl with
  | none => s
  | some sig =>
    let used := usedSemantics sig
    let s := { s with semantic_stats := addUsedStats sig s.semantic_stats }
    match pipe.iaAttrs with
    | none => s
    | some attrs =>
      let r := attrLoop used attrs s.semantic_stats
      let s := { s with semantic_stats := r.2.2 }
      if r.1.isEmpty then s
      else
        let numVerts := action.numIndices.getD 0
        let numInstances := action.numInstances.getD 1
        let totalVerts := numVerts * numInstances
        let wasted := r.2.1 * totalVerts
        let s := { s with wasted_draws := s.wasted_draws + 1,
                          wasted_bytes := s.wasted_bytes + wasted,
                          wasted_vertices := s.wasted_vertices + totalVerts }
        if 100 * 1024 < wasted ∧ s.worst_draws.length < MAX_DETAIL_RECORDS then
          { s with worst_draws := s.worst_draws ++
              [{ eid := action.eventId, vertices := totalVerts,
                 wasted_bytes := wasted, wasted_attrs := r.1.map Prod.fst }] }
        else s

/-- The results dictionary built by `VertexAttributeAnalyzer.analyze`
(`worst_draws` truncated to its first 10 entries). -/
structure VAResults where
  total_draws : Nat
  wasted_draws : Nat
  wasted_bytes : Nat
  wasted_vertices : Nat
  semantic_stats : List (String × Nat × Nat × Nat)
  worst_draws : List VAWorst
deriving DecidableEq, Repr

/-- Model of `VertexAttributeAnalyzer.analyze`. -/
def vaAnalyze (s : VAState) : VAResults :=
  { total_draws := s.total_draws
    wasted_draws := s.wasted_draws
    wasted_bytes := s.wasted_bytes
    wasted_vertices := s.wasted_vertices
    semantic_stats := s.semantic_stats
    worst_draws := s.worst_draws.take 10 }

/-! ## ShaderBindingAnalyzer (analyzers/shader_bindings.py) -/

/-- A bound descriptor; `resource = 0` models `rd.ResourceId.Null()`. -/
structure Descriptor where
  resource : Nat
deriving DecidableEq, Repr

/-- The `access` record of a binding; `staticallyUnused` is read with
`getattr(…, 'staticallyUnused', False)`. -/
structure DescriptorAccess where
  staticallyUnused : Bool
deriving DecidableEq, Repr

/-- One element of `GetReadOnlyResources` / `GetReadWriteResources` /
`GetConstantBlocks`; `descriptor` and `access` are behind `hasattr`
guards. -/
structure UsedBinding where
  descriptor : Option Descriptor
  access : Option DescriptorAccess
deriving DecidableEq, Repr

/-- The per-stage pipeline data `ShaderBindingAnalyzer.analyze_action`
queries: the bound shader (`none` models `GetShader` raising, `some 0` the
null shader) and the three binding lists (SRV, UAV, CBV); a raising
`Get…Resources` call is modelled by the empty list, which the
`try`/`except: pass` makes behaviourally identical. -/
structure StageBindings where
  shader : Option Nat
  ro : List UsedBinding
  rw : List UsedBinding
  cb : List UsedBinding
deriving DecidableEq, Repr

/-- The pipeline state consumed by `ShaderBindingAnalyzer.analyze_action`:
one `StageBindings` per queried stage, in the fixed order
`[Vertex, Pixel, Geometry, Hull, Domain]`. -/
structure SBPipe where
  stages : List StageBindings
deriving DecidableEq, Repr

/-- One entry of `self.worst_draws` in `ShaderBindingAnalyzer`. -/
structure SBWorst where
  eid : Nat
  unused_count : Nat
deriving DecidableEq, Repr

/-- The mutable state of `ShaderBindingAnalyzer`; `binding_stats` is the
defaultdict keyed by `"SRV"`/`"UAV"`/`"CBV"` with `(total, unused)`. -/
structure SBState where
  total_bindings : Nat
  unused_bindings : Nat
  binding_stats : List (String × Nat × Nat)
  draws_with_waste : Nat
  total_draws : Nat
  worst_draws : List SBWorst
deriving DecidableEq, Repr

/-- The constructor state of `ShaderBindingAnalyzer`. -/
def initSBState : SBState :=
  ⟨0, 0, [], 0, 0, []⟩

/-- Model of `self.binding_stats[key]['total'] += 1` on the defaultdict. -/
def bumpBindTotal (key : String) :
    List (String × Nat × Nat) → List (String × Nat × Nat)
  | [] => [(key, 1, 0)]
  | (k, t, u) :: rest =>
    if k = key then (k, t + 1, u) :: rest
    else (k, t, u) :: bumpBindTotal key rest

/-- Model of `self.binding_stats[key]['unused'] += 1` on the defaultdict. -/
def bumpBindUnused (key : String) :
    List (String × Nat × Nat) → List (String × Nat × Nat)
  | [] => [(key, 0, 1)]
  | (k, t, u) :: rest =>
    if k = key then (k, t, u + 1) :: rest
    else (k, t, u) :: bumpBindUnused key rest

/-- Whether a binding passes the two skip guards of the loop body: it has a
`descriptor` whose `resource` is not `Null`. -/
def bindingCounted (b : UsedBinding) : Bool :=
  match b.descriptor with
  | none => false
  | some d => d.resource != 0

/-- Model of `getattr(binding.access, 'staticallyUnused', False)` guarded by
`hasattr(binding, 'access')`. -/
def bindingUnused (b : UsedBinding) : Bool :=
  match b.access with
  | none => false
  | some a => a.staticallyUnused

/-- One of the three identical `for binding in …` loops of
`ShaderBindingAnalyzer.analyze_action`, for the stats key `key`, threading
`(state, draw_unused)`. -/
def bindLoop (key : String) :
    List UsedBinding → SBState × Nat → SBState × Nat
  | [], su => su
  | b :: bs, (s, du) =>
    if bindingCounted b then
      let s := { s with total_bindings := s.total_bindings + 1,
                        binding_stats := bumpBindTotal key s.binding_stats }
      if bindingUnused b then
        bindLoop key bs
          ({ s with unused_bindings := s.unused_bindings + 1,
                    binding_stats := bumpBindUnused key s.binding_stats },
           du + 1)
      else bindLoop key bs (s, du)
    else bindLoop key bs (s, du)

/-- The `for stage in stages` loop body: a stage whose shader lookup raised
or returned the null shader is skipped entirely; otherwise the SRV, UAV and
CBV lists are scanned in order. -/
def stageLoop : List StageBindings → SBState × Nat → SBState × Nat
  | [], su => su
  | st :: sts, su =>
    match st.shader with
    | none => stageLoop sts su
    | some sh =>
      if sh = 0 then stageLoop sts su
      else
        stageLoop sts (bindLoop "CBV" st.cb (bindLoop "UAV" st.rw
          (bindLoop "SRV" st.ro su)))

/-- Model of `ShaderBindingAnalyzer.analyze_action(action, pipe)`: `total_draws` is
incremented, the stages are scanned accumulating `draw_unused`, and a draw
with any unused binding bumps `draws_with_waste`; draws with at least 3
unused bindings are recorded into `worst_draws` while that list is shorter
than `MAX_DETAIL_RECORDS`. -/
def sbAnalyzeAction (action : Action) (pipe : SBPipe) (s : SBState) : SBState :=
  let s := { s with total_draws := s.total_draws + 1 }
  let r := stageLoop pipe.stages (s, 0)
  let s := r.1
  let du := r.2
  if 0 < du then
    let s := { s with draws_with_waste := s.draws_with_waste + 1 }
    if 3 ≤ du ∧ s.worst_draws.length < MAX_DETAIL_RECORDS then
      { s with worst_draws := s.worst_draws ++
          [{ eid := action.eventId, unused_count := du }] }
    else s
  else s

/-- The results dictionary built by `ShaderBindingAnalyzer.analyze`
(`worst_draws` truncated to its first 10 entries). -/
structure SBResults where
  total_bindings : Nat
  unused_bindings : Nat
  binding_stats : List (String × Nat × Nat)
  total_draws : Nat
  draws_with_waste : Nat
  worst_draws : List SBWorst
deriving DecidableEq, Repr

/-- Model of `ShaderBindingAnalyzer.analyze`. -/
def sbAnalyze (s : SBState) : SBResults :=
  { total_bindings := s.total_bindings
    unused_bindings := s.unused_bindings
    binding_stats := s.binding_stats
    total_draws := s.total_draws
    draws_with_waste := s.draws_with_waste
    worst_draws := s.worst_draws.take 10 }

/-! ## OverdrawAnalyzer (analyzers/overdraw.py)

`_detect_main_resolution` scans the capture's textures for the most common
non-square colour-target resolution; its outcome is abstracted as the
resulting `main_screen_pixels` value, fixed at construction time. -/

/-- One entry of `self.high_overdraw_draws`. -/
structure HighOverdraw where
  eid : Nat
  overdraw : ℚ
  triangles : Nat
  instances : Nat
deriving DecidableEq, Repr

/-- The mutable state of `OverdrawAnalyzer`. -/
structure ODState where
  total_triangles : Nat
  total_vertices : Nat
  total_instances : Nat
  main_screen_pixels : Nat
  high_overdraw_draws : List HighOverdraw
deriving DecidableEq, Repr

/-- The constructor state of `OverdrawAnalyzer`, with `main_screen_pixels`
as produced by `_detect_main_resolution`. -/
def initODState (pixels : Nat) : ODState :=
  ⟨0, 0, 0, pixels, []⟩

/-- Model of `OverdrawAnalyzer.analyze_action(action, pipe)` (the `pipe` argument is
unused by the source): vertex/instance/triangle totals are accumulated with
`numIndices` defaulting to 0 and `numInstances` to 1, triangles as
`(num_verts // 3) * num_instances`; when a main resolution is known and the
draw has triangles, its estimated overdraw `triangles * 100 /
main_screen_pixels` is computed, and draws above 3.0 are recorded while the
list is shorter than `MAX_DETAIL_RECORDS`. -/
def odAnalyzeAction (action : Action) (s : ODState) : ODState :=
  let numVerts := action.numIndices.getD 0
  let numInstances := action.numInstances.getD 1
  let s := { s with total_vertices := s.total_vertices + numVerts * numInstances,
                    total_instances := s.total_instances + numInstances }
  let triangles := (numVerts / 3) * numInstances
  let s := { s with total_triangles := s.total_triangles + triangles }
  if 0 < s.main_screen_pixels ∧ 0 < triangles then
    let overdraw : ℚ := (triangles * 100 : ℚ) / (s.main_screen_pixels : ℚ)
    if 3 < overdraw ∧ s.high_overdraw_draws.length < MAX_DETAIL_RECORDS then
      { s with high_overdraw_draws := s.high_overdraw_draws ++
          [{ eid := action.eventId, overdraw := overdraw,
             triangles := triangles, instances := numInstances }] }
    else s
  else s

/-- The results dictionary built by `OverdrawAnalyzer.analyze`. -/
structure ODResults where
  total_triangles : Nat
  total_vertices : Nat
  total_instances : Nat
  main_screen_pixels : Nat
  avg_overdraw : ℚ
  high_overdraw_draws : List HighOverdraw
deriving DecidableEq, Repr

/-- Model of `OverdrawAnalyzer.analyze`: `avg_overdraw` starts at 0 and, when a main
resolution is known, becomes `total_triangles * 100 / main_screen_pixels`
(the assumed 100 pixels per triangle); `high_overdraw_draws` is truncated to
its first 10 entries. -/
def odAnalyze (s : ODState) : ODResults :=
  { total_triangles := s.total_triangles
    total_vertices := s.total_vertices
    total_instances := s.total_instances
    main_screen_pixels := s.main_screen_pixels
    avg_overdraw :=
      if 0 < s.main_screen_pixels then
        (s.total_triangles * 100 : ℚ) / (s.main_screen_pixels : ℚ)
      else 0
    high_overdraw_draws := s.high_overdraw_draws.take 10 }

/-! ## format_bytes (analyzers/base.py)

Python performs the comparisons and divisions on floats; the model uses
exact rationals.  The f-string `f"{size:.2f} {unit}"` renders the scaled
number with two decimals followed by the unit; the model returns the scaled
number together with the chosen unit. -/

/-- The `for unit in ['B', 'KB', 'MB', 'GB']` loop of `format_bytes`: return
`(size, unit)` as soon as `size < 1024`, otherwise divide by 1024 and move
to the next unit; falling out of the loop returns `(size, "TB")` with `size`
already divided by `1024⁴`. -/
def formatBytesLoop : List String → ℚ → ℚ × String
  | [], size => (size, "TB")
  | u :: us, size =>
    if size < 1024 then (size, u) else formatBytesLoop us (size / 1024)

/-- Model of `format_bytes(size)`, as the pair (scaled number, unit). -/
def format_bytes (size : ℚ) : ℚ × String :=
  formatBytesLoop ["B", "KB", "MB", "GB"] size

/-! ## Claim-side (specification) definitions for the analyzers -/

/-- Specification-side waste predicate: an input-assembly attribute is
wasted exactly when it has a semantic name and its full semantic string
(`semanticName ++ semanticIndex`, index defaulting to 0) does not appear
among the full semantic strings of the vertex shader's input signature. -/
def isWasted (used : List String) (a : VertexAttr) : Bool :=
  match attrFullName a with
  | none => false
  | some full => if full ∈ used then false else true

/-- Specification-side triangle estimate of one action:
`(numIndices // 3) * numInstances`, indices defaulting to 0 and instances
to 1. -/
def odTriangles (a : Action) : Nat :=
  (a.numIndices.getD 0 / 3) * a.numInstances.getD 1

/-- The `VertexAttributeAnalyzer` state after the scheduler has fed it a
sequence of `(action, pipe)` pairs. -/
def vaRun (inputs : List (Action × VSPipe)) : VAState :=
  inputs.foldl (fun s i => vaAnalyzeAction i.1 i.2 s) initVAState

/-- The `ShaderBindingAnalyzer` state after a sequence of `(action, pipe)`
pairs. -/
def sbRun (inputs : List (Action × SBPipe)) : SBState :=
  inputs.foldl (fun s i => sbAnalyzeAction i.1 i.2 s) initSBState

/-- The `OverdrawAnalyzer` state after a sequence of actions (its
`analyze_action` ignores the pipeline state). -/
def odRun (pixels : Nat) (acts : List Action) : ODState :=
  acts.foldl (fun s a => odAnalyzeAction a s) (initODState pixels)

/-! ## AnalysisScheduler timeout timer (analyze_all.py) -/

/-- The `threading.Timer` created by `AnalysisScheduler.start_timeout`: a
daemon timer thread which, after `interval` seconds, runs a callback that
sets `self.timed_out = True`. -/
structure TimerModel where
  interval : Nat
  daemon : Bool
deriving DecidableEq, Repr

/-- The scheduler fields involved in timeout handling
(`self.timeout`, `self.timed_out`, `self.timeout_timer`). -/
structure SchedulerTimeoutState where
  timeout : Nat
  timed_out : Bool
  timeout_timer : Option TimerModel
deriving DecidableEq, Repr

/-- Model of `AnalysisScheduler.start_timeout`: creates
`threading.Timer(self.timeout, on_timeout)`, marks it a daemon thread and
starts it.  The timer's asynchronous callback (which would later set
`timed_out`) is not run here. -/
def start_timeout (s : SchedulerTimeoutState) : SchedulerTimeoutState :=
  { s with timeout_timer := some { interval := s.timeout, daemon := true } }

/-- Model of `TIMEOUT_SECONDS` in `scripts/pc/analyze_shader_bindings.py`
(5 minutes). -/
def TIMEOUT_SECONDS : Nat := 300

/-- The module-level timer state of `scripts/pc/analyze_shader_bindings.py`
(the global `timeout_timer`, initially `None`). -/
structure PcScriptState where
  timeout_timer : Option TimerModel
deriving DecidableEq, Repr

/-- Model of the module-level `start_timeout` of
`scripts/pc/analyze_shader_bindings.py`: creates
`threading.Timer(TIMEOUT_SECONDS, timeout_handler)`, marks it a daemon
thread and starts it.  Its callback `timeout_handler` calls `os._exit(1)`
(a hard process kill); the callback is not run here. -/
def pc_start_timeout (s : PcScriptState) : PcScriptState :=
  { s with timeout_timer := some { interval := TIMEOUT_SECONDS, daemon := true } }

/-! # Theorems -/

/-! ## C10: format_bytes -/

theorem formatBytesLoop_stop (u : String) (us : List String) (size : ℚ)
    (h : size < 1024) : formatBytesLoop (u :: us) size = (size, u) := by
  simp [formatBytesLoop, h]

theorem formatBytesLoop_step (u : String) (us : List String) (size : ℚ)
    (h : 1024 ≤ size) :
    formatBytesLoop (u :: us) size = formatBytesLoop us (size / 1024) := by
  simp [formatBytesLoop, not_lt.mpr h]

/-- C10: `format_bytes` is total on every non-negative size and always
returns one of the units B/KB/MB/GB/TB; for `1024^k ≤ size < 1024^(k+1)`
with `k ≤ 3` it returns the `k`-th unit with the number `size / 1024^k`, and
for `size ≥ 1024^4` it returns TB with the number `size / 1024^4`.  (The
model returns the scaled number and the unit; the Python function renders
the number with two decimals in front of the unit.) -/
theorem format_bytes_unit_selection (size0 size sizeT : ℚ) (k : Nat)
    (h00 : 0 ≤ size0) (h0 : 0 ≤ size) (hk : k ≤ 3)
    (hlo : (1024 : ℚ) ^ k ≤ size) (hhi : size < 1024 ^ (k + 1))
    (hT : (1024 : ℚ) ^ 4 ≤ sizeT) :
    (format_bytes size0).2 ∈ (["B", "KB", "MB", "GB", "TB"] : List String)
    ∧ format_bytes size = (size / 1024 ^ k, (["B", "KB", "MB", "GB"].getD k "TB"))
    ∧ format_bytes sizeT = (sizeT / 1024 ^ 4, "TB") := by
  refine ⟨?_, ?_, ?_⟩
  · simp only [format_bytes, formatBytesLoop]
    split_ifs <;> simp
  · interval_cases k
    · have h1 : size < 1024 := by
        have := hhi
        norm_num at this
        linarith
      rw [format_bytes, formatBytesLoop_stop _ _ _ h1]
      norm_num
    · norm_num at hlo hhi
      have h1 : (1024 : ℚ) ≤ size := by linarith
      have h2 : size / 1024 < 1024 := by
        rw [div_lt_iff (by norm_num : (0 : ℚ) < 1024)]
        linarith
      rw [format_bytes, formatBytesLoop_step _ _ _ h1, formatBytesLoop_stop _ _ _ h2]
      norm_num
    · norm_num at hlo hhi
      have h1 : (1024 : ℚ) ≤ size := by linarith
      have h2 : (1024 : ℚ) ≤ size / 1024 := by
        rw [le_div_iff (by norm_num : (0 : ℚ) < 1024)]
        linarith
      have h3 : size / 1024 / 1024 < 1024 := by
        rw [div_div, div_lt_iff (by norm_num : (0 : ℚ) < 1024 * 1024)]
        linarith
      rw [format_bytes, formatBytesLoop_step _ _ _ h1, formatBytesLoop_step _ _ _ h2,
        formatBytesLoop_stop _ _ _ h3]
      rw [Prod.mk.injEq]
      refine ⟨by rw [div_div]; norm_num, rfl⟩
    · norm_num at hlo hhi
      have h1 : (1024 : ℚ) ≤ size := by linarith
      have h2 : (1024 : ℚ) ≤ size / 1024 := by
        rw [le_div_iff (by norm_num : (0 : ℚ) < 1024)]
        linarith
      have h3 : (1024 : ℚ) ≤ size / 1024 / 1024 := by
        rw [div_div, le_div_iff (by norm_num : (0 : ℚ) < 1024 * 1024)]
        linarith
      have h4 : size / 1024 / 1024 / 1024 < 1024 := by
        rw [div_div, div_div, div_lt_iff (by norm_num : (0 : ℚ) < 1024 * (1024 * 1024))]
        linarith
      rw [format_bytes, formatBytesLoop_step _ _ _ h1, formatBytesLoop_step _ _ _ h2,
        formatBytesLoop_step _ _ _ h3, formatBytesLoop_stop _ _ _ h4]
      rw [Prod.mk.injEq]
      refine ⟨by rw [div_div, div_div]; norm_num, rfl⟩
  · norm_num at hT
    have h1 : (1024 : ℚ) ≤ sizeT := by linarith
    have h2 : (1024 : ℚ) ≤ sizeT / 1024 := by
      rw [le_div_iff (by norm_num : (0 : ℚ) < 1024)]
      linarith
    have h3 : (1024 : ℚ) ≤ sizeT / 1024 / 1024 := by
      rw [div_div, le_div_iff (by norm_num : (0 : ℚ) < 1024 * 1024)]
      linarith
    have h4 : (1024 : ℚ) ≤ sizeT / 1024 / 1024 / 1024 := by
      rw [div_div, div_div, le_div_iff (by norm_num : (0 : ℚ) < 1024 * (1024 * 1024))]
      linarith
    rw [format_bytes, formatBytesLoop_step _ _ _ h1, formatBytesLoop_step _ _ _ h2,
      formatBytesLoop_step _ _ _ h3, formatBytesLoop_step _ _ _ h4]
    rw [formatBytesLoop]
    rw [Prod.mk.injEq]
    refine ⟨by rw [div_div, div_div, div_div]; norm_num, rfl⟩

/-- Witness for C10 at `size0 = 5`, `size = 2048` (KB band, `k = 1`) and
`sizeT = 2 · 1024⁴`. -/
theorem format_bytes_unit_selection_witness :
    ((0 : ℚ) ≤ 5 ∧ (0 : ℚ) ≤ 2048 ∧ 1 ≤ 3 ∧ (1024 : ℚ) ^ 1 ≤ 2048
      ∧ (2048 : ℚ) < 1024 ^ (1 + 1) ∧ (1024 : ℚ) ^ 4 ≤ 2199023255552)
    ∧ ((format_bytes 5).2 ∈ (["B", "KB", "MB", "GB", "TB"] : List String)
      ∧ format_bytes 2048 = (2048 / 1024 ^ 1, (["B", "KB", "MB", "GB"].getD 1 "TB"))
      ∧ format_bytes 2199023255552 = (2199023255552 / 1024 ^ 4, "TB")) :=
  ⟨⟨by norm_num, by norm_num, by norm_num, by norm_num, by norm_num, by norm_num⟩,
    format_bytes_unit_selection 5 2048 2199023255552 1 (by norm_num) (by norm_num)
      (by norm_num) (by norm_num) (by norm_num) (by norm_num)⟩

/-! ## C4: MemoryAnalyzer -/

theorem memTexLoop_size (ts : List Texture) :
    ∀ st : Nat × List (String × Nat × Nat) × List LargeTexture,
    (memTexLoop ts st).1 = st.1 + (ts.map texSize).sum := by
  induction ts with
  | nil => intro st; simp [memTexLoop]
  | cons t ts ih =>
    intro st
    obtain ⟨sz, fmts, larges⟩ := st
    simp only [memTexLoop, List.map_cons, List.sum_cons]
    rw [ih]
    omega

theorem memBufLoop_size (bs : List Buffer) :
    ∀ st : Nat × List LargeBuffer,
    (memBufLoop bs st).1 = st.1 + (bs.map bufSize).sum := by
  induction bs with
  | nil => intro st; simp [memBufLoop]
  | cons b bs ih =>
    intro st
    obtain ⟨sz, larges⟩ := st
    simp only [memBufLoop, List.map_cons, List.sum_cons]
    rw [ih]
    omega

/-- C4: `MemoryAnalyzer.analyze` is pure aggregation over the controller's
resource lists: `texture_count = len(GetTextures())`,
`buffer_count = len(GetBuffers())`, `texture_size` is the sum of the
textures' `byteSize` (0 when absent), `buffer_size` the sum of the buffers'
`length` (0 when absent), and `total_size` is exactly their sum. -/
theorem memory_analyze_pure_aggregation (textures : List Texture)
    (buffers : List Buffer) :
    (memoryAnalyze textures buffers).texture_count = textures.length
    ∧ (memoryAnalyze textures buffers).buffer_count = buffers.length
    ∧ (memoryAnalyze textures buffers).texture_size = (textures.map texSize).sum
    ∧ (memoryAnalyze textures buffers).buffer_size = (buffers.map bufSize).sum
    ∧ (memoryAnalyze textures buffers).total_size
        = (memoryAnalyze textures buffers).texture_size
          + (memoryAnalyze textures buffers).buffer_size := by
  refine ⟨rfl, rfl, ?_, ?_, ?_⟩
  · show (memTexLoop textures (0, [], [])).1 = _
    rw [memTexLoop_size]
    simp
  · show (memBufLoop buffers (0, [])).1 = _
    rw [memBufLoop_size]
    simp
  · rfl

/-! ## C3: the timeout timer thread -/

/-- Counterexample to C3 ("no script creates threads"): running
`AnalysisScheduler.start_timeout` on the freshly constructed scheduler state
(default timeout 600 s) does create a timer thread — the `timeout_timer`
field changes from `none` to a started `threading.Timer`. -/
theorem start_timeout_creates_timer :
    (start_timeout ⟨600, false, none⟩).timeout_timer
      = some { interval := 600, daemon := true } := rfl

/-- C3 (amended): the threads the repository creates are exactly its two
timeout watchdog timers — the daemon `threading.Timer` started by
`AnalysisScheduler.start_timeout` in `scripts/unified/analyze_all.py`,
armed with the configured timeout, whose callback only sets the `timed_out`
flag, and the daemon `threading.Timer` started by `start_timeout` in
`scripts/pc/analyze_shader_bindings.py`, armed with `TIMEOUT_SECONDS`
(300 s), whose callback calls `os._exit(1)`; all analysis work itself is
sequential calls into the external replay engine plus arithmetic and
aggregation.  Starting the scheduler's timer does not itself change the
`timed_out` flag or the timeout value (the flag is only set later by the
callback and polled cooperatively by the traversal). -/
theorem timeout_watchdog_timers (s : SchedulerTimeoutState) (t : PcScriptState) :
    (start_timeout s).timeout_timer = some { interval := s.timeout, daemon := true }
    ∧ (start_timeout s).timed_out = s.timed_out
    ∧ (start_timeout s).timeout = s.timeout
    ∧ (pc_start_timeout t).timeout_timer
      = some { interval := TIMEOUT_SECONDS, daemon := true } := by
  refine ⟨rfl, rfl, rfl, rfl⟩

/-! ## C7: OverdrawAnalyzer -/

theorem odAnalyzeAction_step (a : Action) (s : ODState) :
    (odAnalyzeAction a s).total_triangles = s.total_triangles + odTriangles a
    ∧ (odAnalyzeAction a s).main_screen_pixels = s.main_screen_pixels := by
  simp only [odAnalyzeAction, odTriangles]
  split_ifs <;> simp

theorem odFold_step (acts : List Action) :
    ∀ s : ODState,
    (acts.foldl (fun s a => odAnalyzeAction a s) s).total_triangles
      = s.total_triangles + (acts.map odTriangles).sum
    ∧ (acts.foldl (fun s a => odAnalyzeAction a s) s).main_screen_pixels
      = s.main_screen_pixels := by
  induction acts with
  | nil => intro s; simp
  | cons a acts ih =>
    intro s
    simp only [List.foldl_cons, List.map_cons, List.sum_cons]
    refine ⟨?_, ?_⟩
    · rw [(ih (odAnalyzeAction a s)).1, (odAnalyzeAction_step a s).1]
      omega
    · rw [(ih (odAnalyzeAction a s)).2, (odAnalyzeAction_step a s).2]

/-- C7: after processing any sequence of draw/dispatch actions,
`total_triangles` is the sum of `(numIndices // 3) * numInstances` over the
actions (indices defaulting to 0, instances to 1), and `avg_overdraw` equals
`total_triangles * 100 / main_screen_pixels` when `main_screen_pixels > 0`
and `0` otherwise. -/
theorem overdraw_estimate_formula (pixels : Nat) (acts : List Action) :
    (odAnalyze (odRun pixels acts)).total_triangles = (acts.map odTriangles).sum
    ∧ (odAnalyze (odRun pixels acts)).avg_overdraw
      = (if 0 < pixels
         then (((acts.map odTriangles).sum * 100 : ℚ) / (pixels : ℚ))
         else 0) := by
  have h := odFold_step acts (initODState pixels)
  have h1 : (odRun pixels acts).total_triangles = (acts.map odTriangles).sum := by
    rw [odRun] at *
    rw [h.1]
    simp [initODState]
  have h2 : (odRun pixels acts).main_screen_pixels = pixels := by
    rw [odRun] at *
    rw [h.2]
    simp [initODState]
  refine ⟨h1, ?_⟩
  simp only [odAnalyze, h1, h2]

/-! ## C9: detail-record lists stay bounded -/

theorem vaAnalyzeAction_bound (a : Action) (p : VSPipe) (s : VAState)
    (h : s.worst_draws.length ≤ MAX_DETAIL_RECORDS) :
    (vaAnalyzeAction a p s).worst_draws.length ≤ MAX_DETAIL_RECORDS := by
  obtain ⟨vr, ia⟩ := p
  simp only [vaAnalyzeAction]
  cases vr with
  | none => simpa using h
  | some sig =>
    cases ia with
    | none => simpa using h
    | some attrs =>
      simp only
      split_ifs with h1 h2 <;> simp_all <;> omega

theorem bindLoop_worst (key : String) (bs : List UsedBinding) :
    ∀ r : SBState × Nat,
    ((bindLoop key bs r).1).worst_draws = (r.1).worst_draws := by
  induction bs with
  | nil => intro r; simp [bindLoop]
  | cons b bs ih =>
    intro r
    obtain ⟨s, du⟩ := r
    simp only [bindLoop]
    split_ifs <;> simp [ih]

theorem stageLoop_worst (sts : List StageBindings) :
    ∀ r : SBState × Nat,
    ((stageLoop sts r).1).worst_draws = (r.1).worst_draws := by
  induction sts with
  | nil => intro r; simp [stageLoop]
  | cons st sts ih =>
    intro r
    simp only [stageLoop]
    cases st.shader with
    | none => simp [ih]
    | some sh =>
      simp only
      split_ifs with h
      · simp [ih]
      · rw [ih, bindLoop_worst, bindLoop_worst, bindLoop_worst]

theorem sbAnalyzeAction_bound (a : Action) (p : SBPipe) (s : SBState)
    (h : s.worst_draws.length ≤ MAX_DETAIL_RECORDS) :
    (sbAnalyzeAction a p s).worst_draws.length ≤ MAX_DETAIL_RECORDS := by
  simp only [sbAnalyzeAction]
  have hw : ((stageLoop p.stages
      ({ s with total_draws := s.total_draws + 1 }, 0)).1).worst_draws
      = s.worst_draws := by
    rw [stageLoop_worst]
  split_ifs <;> simp_all <;> omega

theorem odAnalyzeAction_bound (a : Action) (s : ODState)
    (h : s.high_overdraw_draws.length ≤ MAX_DETAIL_RECORDS) :
    (odAnalyzeAction a s).high_overdraw_draws.length ≤ MAX_DETAIL_RECORDS := by
  simp only [odAnalyzeAction]
  split_ifs <;> simp_all <;> omega

theorem vaRun_bound (l : List (Action × VSPipe)) :
    ∀ s : VAState, s.worst_draws.length ≤ MAX_DETAIL_RECORDS →
    ((l.foldl (fun s i => vaAnalyzeAction i.1 i.2 s) s).worst_draws.length
      ≤ MAX_DETAIL_RECORDS) := by
  induction l with
  | nil => intro s h; simpa using h
  | cons i l ih =>
    intro s h
    exact ih _ (vaAnalyzeAction_bound i.1 i.2 s h)

theorem sbRun_bound (l : List (Action × SBPipe)) :
    ∀ s : SBState, s.worst_draws.length ≤ MAX_DETAIL_RECORDS →
    ((l.foldl (fun s i => sbAnalyzeAction i.1 i.2 s) s).worst_draws.length
      ≤ MAX_DETAIL_RECORDS) := by
  induction l with
  | nil => intro s h; simpa using h
  | cons i l ih =>
    intro s h
    exact ih _ (sbAnalyzeAction_bound i.1 i.2 s h)

theorem odRun_bound (l : List Action) :
    ∀ s : ODState, s.high_overdraw_draws.length ≤ MAX_DETAIL_RECORDS →
    ((l.foldl (fun s a => odAnalyzeAction a s) s).high_overdraw_draws.length
      ≤ MAX_DETAIL_RECORDS) := by
  induction l with
  | nil => intro s h; simpa using h
  | cons a l ih =>
    intro s h
    exact ih _ (odAnalyzeAction_bound a s h)

/-- C9: after any sequence of `analyze_action` calls, the detail-record
lists of the three iteration analyzers never exceed `MAX_DETAIL_RECORDS`
(50), and the result dictionaries built by `analyze()` expose at most 10 of
those records. -/
theorem detail_records_bounded (l1 : List (Action × VSPipe))
    (l2 : List (Action × SBPipe)) (pixels : Nat) (l3 : List Action) :
    (vaRun l1).worst_draws.length ≤ MAX_DETAIL_RECORDS
    ∧ (sbRun l2).worst_draws.length ≤ MAX_DETAIL_RECORDS
    ∧ (odRun pixels l3).high_overdraw_draws.length ≤ MAX_DETAIL_RECORDS
    ∧ (vaAnalyze (vaRun l1)).worst_draws.length ≤ 10
    ∧ (sbAnalyze (sbRun l2)).worst_draws.length ≤ 10
    ∧ (odAnalyze (odRun pixels l3)).high_overdraw_draws.length ≤ 10 := by
  refine ⟨vaRun_bound l1 initVAState (by simp [initVAState]),
    sbRun_bound l2 initSBState (by simp [initSBState]),
    odRun_bound l3 (initODState pixels) (by simp [initODState]), ?_, ?_, ?_⟩
  · simp [vaAnalyze, List.length_take]
  · simp [sbAnalyze, List.length_take]
  · simp [odAnalyze, List.length_take]

/-! ## C5: VertexAttributeAnalyzer waste characterization -/

theorem attrLoop_spec (used : List String) (attrs : List VertexAttr) :
    ∀ st : List (String × Nat × Nat × Nat),
    (attrLoop used attrs st).1
      = (attrs.filter (isWasted used)).map
          (fun a => (a.semanticName.getD "", attrByteSize a))
    ∧ (attrLoop used attrs st).2.1
      = ((attrs.filter (isWasted used)).map attrByteSize).sum := by
  induction attrs with
  | nil => intro st; simp [attrLoop]
  | cons a as ih =>
    intro st
    obtain ⟨sn, si, fmt⟩ := a
    cases sn with
    | none =>
      simp only [attrLoop, List.filter_cons]
      have hw : isWasted used ⟨none, si, fmt⟩ = false := by
        simp [isWasted, attrFullName]
      rw [hw]
      simpa using ih st
    | some nm =>
      simp only [attrLoop]
      by_cases hmem : nm ++ toString (si.getD 0) ∈ used
      · have hw : isWasted used ⟨some nm, si, fmt⟩ = false := by
          simp [isWasted, attrFullName, hmem]
        simp only [List.filter_cons, hw]
        simp only [hmem, if_pos, Bool.false_eq_true, if_false]
        simpa using ih (bumpProvided nm st)
      · have hw : isWasted used ⟨some nm, si, fmt⟩ = true := by
          simp [isWasted, attrFullName, hmem]
        simp only [List.filter_cons, hw]
        simp only [hmem, if_false, if_true]
        have := ih (bumpWasted nm (bumpProvided nm st))
        refine ⟨?_, ?_⟩
        · simp only [this.1]
          simp
        · simp only [this.2]
          simp

/-- C5: `VertexAttributeAnalyzer.analyze_action` counts an input-assembly
attribute of a draw as wasted exactly when its full semantic string
(`semanticName ++ semanticIndex`) does not appear among the full semantic
strings of the vertex shader's `inputSignature`; and for a draw with at
least one wasted attribute it adds to `wasted_bytes` exactly the per-vertex
sum of the wasted attributes' byte sizes (`compByteWidth * compCount`,
defaulting to 4 when the format is unavailable) multiplied by
`numIndices * numInstances` (0 when nothing is wasted). -/
theorem vertex_attr_waste_characterization (action : Action) (pipe : VSPipe)
    (s : VAState) (sig : List SigParam) (attrs : List VertexAttr)
    (hv : pipe.vsRefl = some sig) (hi : pipe.iaAttrs = some attrs) :
    (attrLoop (usedSemantics sig) attrs (addUsedStats sig s.semantic_stats)).1
      = (attrs.filter (isWasted (usedSemantics sig))).map
          (fun a => (a.semanticName.getD "", attrByteSize a))
    ∧ (vaAnalyzeAction action pipe s).wasted_bytes
      = s.wasted_bytes
        + (if (attrs.filter (isWasted (usedSemantics sig))).isEmpty then 0
           else ((attrs.filter (isWasted (usedSemantics sig))).map attrByteSize).sum
                * (action.numIndices.getD 0 * action.numInstances.getD 1)) := by
  have hspec := attrLoop_spec (usedSemantics sig) attrs (addUsedStats sig s.semantic_stats)
  refine ⟨hspec.1, ?_⟩
  simp only [vaAnalyzeAction, hv, hi]
  by_cases hemp : (attrs.filter (isWasted (usedSemantics sig))).isEmpty
  · have h1 : (attrLoop (usedSemantics sig) attrs
        (addUsedStats sig s.semantic_stats)).1.isEmpty = true := by
      rw [hspec.1]
      simp only [List.isEmpty_iff] at hemp ⊢
      simp [hemp]
    simp only [h1, if_true, hemp]
    simp
  · have h1 : (attrLoop (usedSemantics sig) attrs
        (addUsedStats sig s.semantic_stats)).1.isEmpty = false := by
      rw [hspec.1]
      rcases hfil : attrs.filter (isWasted (usedSemantics sig)) with _ | ⟨x, xs⟩
      · exact absurd (by simp [hfil]) hemp
      · simp
    simp only [h1, Bool.false_eq_true, if_false, hemp]
    rw [hspec.2]
    split_ifs <;> simp

/-- Witness for C5: a draw of 6 indices and 2 instances whose IA provides
`POSITION0` (used) and `NORMAL0` (absent from the signature, 4 · 3 = 12
bytes per vertex): `wasted_bytes` grows by 12 · (6 · 2) = 144. -/
theorem vertex_attr_waste_characterization_witness :
    (attrLoop (usedSemantics [⟨some "POSITION", some 0⟩])
        [⟨some "POSITION", some 0, none⟩,
         ⟨some "NORMAL", some 0, some ⟨some 4, some 3⟩⟩]
        (addUsedStats [⟨some "POSITION", some 0⟩] initVAState.semantic_stats)).1
      = (([⟨some "POSITION", some 0, none⟩,
           ⟨some "NORMAL", some 0, some ⟨some 4, some 3⟩⟩] :
            List VertexAttr).filter
              (isWasted (usedSemantics [⟨some "POSITION", some 0⟩]))).map
          (fun a => (a.semanticName.getD "", attrByteSize a))
    ∧ (vaAnalyzeAction (.mk 7 ⟨true, false, false, false, false⟩ (some 6) (some 2) [])
        ⟨some [⟨some "POSITION", some 0⟩],
         some [⟨some "POSITION", some 0, none⟩,
               ⟨some "NORMAL", some 0, some ⟨some 4, some 3⟩⟩]⟩
        initVAState).wasted_bytes
      = initVAState.wasted_bytes
        + (if (([⟨some "POSITION", some 0, none⟩,
                 ⟨some "NORMAL", some 0, some ⟨some 4, some 3⟩⟩] :
                  List VertexAttr).filter
                    (isWasted (usedSemantics [⟨some "POSITION", some 0⟩]))).isEmpty
           then 0
           else ((([⟨some "POSITION", some 0, none⟩,
                    ⟨some "NORMAL", some 0, some ⟨some 4, some 3⟩⟩] :
                     List VertexAttr).filter
                       (isWasted (usedSemantics [⟨some "POSITION", some 0⟩]))).map
                   attrByteSize).sum
             * ((Action.mk 7 ⟨true, false, false, false, false⟩ (some 6) (some 2)
                   []).numIndices.getD 0
               * (Action.mk 7 ⟨true, false, false, false, false⟩ (some 6) (some 2)
                   []).numInstances.getD 1)) :=
  vertex_attr_waste_characterization
    (.mk 7 ⟨true, false, false, false, false⟩ (some 6) (some 2) [])
    ⟨some [⟨some "POSITION", some 0⟩],
     some [⟨some "POSITION", some 0, none⟩,
           ⟨some "NORMAL", some 0, some ⟨some 4, some 3⟩⟩]⟩
    initVAState [⟨some "POSITION", some 0⟩]
    [⟨some "POSITION", some 0, none⟩,
     ⟨some "NORMAL", some 0, some ⟨some 4, some 3⟩⟩] rfl rfl

/-! ## C6: BasicStatsAnalyzer -/

theorem maxDepthAt_succ (cs : List Action) :
    ∀ depth : Nat, max depth (maxDepthAt (depth + 1) cs)
      = depth + maxDepthChildren cs := by
  induction cs with
  | nil => intro depth; simp [maxDepthAt, maxDepthChildren]
  | cons a as ih =>
    intro depth
    simp only [maxDepthAt, maxDepthChildren]
    have := ih depth
    omega

mutual
theorem count_actions_spec : ∀ (a : Action) (depth : Nat) (r : BasicStats),
    count_actions depth r a =
      ⟨r.draw_count + cntA (fun f => f.drawcall) a,
       r.dispatch_count + cntA (fun f => f.dispatch) a,
       r.clear_count + cntA (fun f => f.clear) a,
       r.copy_count + cntA (fun f => f.copy) a,
       r.marker_count + cntA (fun f => f.pushMarker) a,
       r.total_actions + numNodesA a,
       max r.max_depth (depth + maxDepthA a)⟩
  | .mk e f ni nin cs, depth, r => by
    have hms := maxDepthAt_succ cs depth
    simp only [count_actions]
    rw [countActionsList_spec cs (depth + 1) _]
    obtain ⟨fd, fdi, fcl, fco, fm⟩ := f
    obtain ⟨rd, rdi, rcl, rco, rm, rt, rmax⟩ := r
    simp only [cntA, numNodesA, maxDepthA, BasicStats.mk.injEq]
    cases fd <;> cases fdi <;> cases fcl <;> cases fco <;> cases fm <;>
      (simp only [Bool.false_eq_true, if_true, if_false, BasicStats.mk.injEq]
       refine ⟨by omega, by omega, by omega, by omega, by omega, by omega, by omega⟩)

theorem countActionsList_spec : ∀ (as : List Action) (depth : Nat) (r : BasicStats),
    countActionsList depth r as =
      ⟨r.draw_count + cntL (fun f => f.drawcall) as,
       r.dispatch_count + cntL (fun f => f.dispatch) as,
       r.clear_count + cntL (fun f => f.clear) as,
       r.copy_count + cntL (fun f => f.copy) as,
       r.marker_count + cntL (fun f => f.pushMarker) as,
       r.total_actions + numNodesL as,
       max r.max_depth (maxDepthAt depth as)⟩
  | [], depth, r => by
    simp only [countActionsList, cntL, numNodesL, maxDepthAt]
    obtain ⟨rd, rdi, rcl, rco, rm, rt, rmax⟩ := r
    simp
  | a :: as, depth, r => by
    simp only [countActionsList]
    rw [count_actions_spec a depth r, countActionsList_spec as depth _]
    simp only [cntL, numNodesL, maxDepthAt, BasicStats.mk.injEq]
    refine ⟨by omega, by omega, by omega, by omega, by omega, by omega, by omega⟩
end

/-- C6: `BasicStatsAnalyzer.analyze` returns `total_actions` equal to the
number of nodes reachable from the root actions through `children`,
`max_depth` equal to the maximum nesting depth (roots at depth 0), and one
count per flag category equal to the number of nodes carrying that flag bit
(a node with several bits set contributes to several counts). -/
theorem basic_stats_counts (roots : List Action) :
    (basicStatsAnalyze roots).total_actions = numNodesL roots
    ∧ (basicStatsAnalyze roots).max_depth = maxDepthF roots
    ∧ (basicStatsAnalyze roots).draw_count = cntL (fun f => f.drawcall) roots
    ∧ (basicStatsAnalyze roots).dispatch_count = cntL (fun f => f.dispatch) roots
    ∧ (basicStatsAnalyze roots).clear_count = cntL (fun f => f.clear) roots
    ∧ (basicStatsAnalyze roots).copy_count = cntL (fun f => f.copy) roots
    ∧ (basicStatsAnalyze roots).marker_count = cntL (fun f => f.pushMarker) roots := by
  rw [basicStatsAnalyze, countActionsList_spec roots 0 initBasicStats]
  simp [initBasicStats, maxDepthF]

/-! ## Trace extraction lemmas -/

@[simp] theorem visitsOf_nil : visitsOf [] = [] := rfl

@[simp] theorem visitsOf_cons_visit (e : Nat) (t : List Ev) :
    visitsOf (Ev.visit e :: t) = e :: visitsOf t := rfl

@[simp] theorem visitsOf_cons_replay (e : Nat) (t : List Ev) :
    visitsOf (Ev.replay e :: t) = visitsOf t := rfl

@[simp] theorem visitsOf_cons_call (m : String) (e : Nat) (t : List Ev) :
    visitsOf (Ev.call m e :: t) = visitsOf t := rfl

@[simp] theorem visitsOf_cons_fin (m : String) (t : List Ev) :
    visitsOf (Ev.fin m :: t) = visitsOf t := rfl

@[simp] theorem visitsOf_append (t u : List Ev) :
    visitsOf (t ++ u) = visitsOf t ++ visitsOf u :=
  List.filterMap_append t u _

@[simp] theorem replaysOf_nil : replaysOf [] = [] := rfl

@[simp] theorem replaysOf_cons_visit (e : Nat) (t : List Ev) :
    replaysOf (Ev.visit e :: t) = replaysOf t := rfl

@[simp] theorem replaysOf_cons_replay (e : Nat) (t : List Ev) :
    replaysOf (Ev.replay e :: t) = e :: replaysOf t := rfl

@[simp] theorem replaysOf_cons_call (m : String) (e : Nat) (t : List Ev) :
    replaysOf (Ev.call m e :: t) = replaysOf t := rfl

@[simp] theorem replaysOf_cons_fin (m : String) (t : List Ev) :
    replaysOf (Ev.fin m :: t) = replaysOf t := rfl

@[simp] theorem replaysOf_append (t u : List Ev) :
    replaysOf (t ++ u) = replaysOf t ++ replaysOf u :=
  List.filterMap_append t u _

@[simp] theorem callsOf_nil (m : String) : callsOf m [] = [] := rfl

@[simp] theorem callsOf_cons_visit (m : String) (e : Nat) (t : List Ev) :
    callsOf m (Ev.visit e :: t) = callsOf m t := rfl

@[simp] theorem callsOf_cons_replay (m : String) (e : Nat) (t : List Ev) :
    callsOf m (Ev.replay e :: t) = callsOf m t := rfl

theorem callsOf_cons_call (m m2 : String) (e : Nat) (t : List Ev) :
    callsOf m (Ev.call m2 e :: t)
      = if m2 = m then e :: callsOf m t else callsOf m t := by
  by_cases h : m2 = m
  · subst h
    simp [callsOf]
  · simp [callsOf, h]

@[simp] theorem callsOf_cons_fin (m m2 : String) (t : List Ev) :
    callsOf m (Ev.fin m2 :: t) = callsOf m t := rfl

@[simp] theorem callsOf_append (m : String) (t u : List Ev) :
    callsOf m (t ++ u) = callsOf m t ++ callsOf m u :=
  List.filterMap_append t u _

@[simp] theorem finsOf_nil : finsOf [] = [] := rfl

@[simp] theorem finsOf_cons_visit (e : Nat) (t : List Ev) :
    finsOf (Ev.visit e :: t) = finsOf t := rfl

@[simp] theorem finsOf_cons_replay (e : Nat) (t : List Ev) :
    finsOf (Ev.replay e :: t) = finsOf t := rfl

@[simp] theorem finsOf_cons_call (m : String) (e : Nat) (t : List Ev) :
    finsOf (Ev.call m e :: t) = finsOf t := rfl

@[simp] theorem finsOf_cons_fin (m : String) (t : List Ev) :
    finsOf (Ev.fin m :: t) = m :: finsOf t := rfl

@[simp] theorem finsOf_append (t u : List Ev) :
    finsOf (t ++ u) = finsOf t ++ finsOf u :=
  List.filterMap_append t u _

/-! ## callAnalyzers lemmas -/

theorem callAnalyzers_visits (actFails : String → Nat → Bool) (eid : Nat)
    (ms : List String) : ∀ errors : List String,
    visitsOf (callAnalyzers actFails eid ms errors).1 = [] := by
  induction ms with
  | nil => intro errors; simp [callAnalyzers]
  | cons m ms ih =>
    intro errors
    simp only [callAnalyzers]
    split_ifs <;> simp [ih]

theorem callAnalyzers_replays (actFails : String → Nat → Bool) (eid : Nat)
    (ms : List String) : ∀ errors : List String,
    replaysOf (callAnalyzers actFails eid ms errors).1 = [] := by
  induction ms with
  | nil => intro errors; simp [callAnalyzers]
  | cons m ms ih =>
    intro errors
    simp only [callAnalyzers]
    split_ifs <;> simp [ih]

theorem callAnalyzers_fins (actFails : String → Nat → Bool) (eid : Nat)
    (ms : List String) : ∀ errors : List String,
    finsOf (callAnalyzers actFails eid ms errors).1 = [] := by
  induction ms with
  | nil => intro errors; simp [callAnalyzers]
  | cons m ms ih =>
    intro errors
    simp only [callAnalyzers]
    split_ifs <;> simp [ih]

theorem callAnalyzers_errors (actFails : String → Nat → Bool) (eid : Nat)
    (x : String) : ∀ (ms errors : List String),
    (x ∈ (callAnalyzers actFails eid ms errors).2
      ↔ x ∈ errors ∨ (x ∈ ms ∧ actFails x eid = true)) := by
  intro ms
  induction ms with
  | nil => intro errors; simp [callAnalyzers]
  | cons m ms ih =>
    intro errors
    simp only [callAnalyzers]
    by_cases hme : m ∈ errors
    · rw [if_pos hme, ih]
      have hsub : x = m → x ∈ errors := fun h => h ▸ hme
      simp only [List.mem_cons]
      tauto
    · rw [if_neg hme]
      simp only
      rw [ih]
      by_cases haf : actFails m eid = true
      · simp only [haf, if_true, List.mem_append, List.mem_singleton, List.mem_cons]
        have hsub : x = m → actFails x eid = true := fun h => h ▸ haf
        tauto
      · simp only [haf, Bool.false_eq_true, if_false, List.mem_cons]
        have hsub : x = m → ¬actFails x eid = true := fun h => h ▸ haf
        tauto

theorem callAnalyzers_calls (actFails : String → Nat → Bool) (eid : Nat)
    (x : String) : ∀ ms : List String, ms.Nodup → ∀ errors : List String,
    callsOf x (callAnalyzers actFails eid ms errors).1
      = if x ∈ ms ∧ x ∉ errors then [eid] else [] := by
  intro ms
  induction ms with
  | nil => intro _ errors; simp [callAnalyzers]
  | cons m ms ih =>
    intro hnd errors
    obtain ⟨hm, hnd'⟩ := List.nodup_cons.mp hnd
    simp only [callAnalyzers]
    by_cases hme : m ∈ errors
    · rw [if_pos hme, ih hnd' errors]
      by_cases hxm : x = m
      · subst hxm
        simp [hme, hm]
      · simp [List.mem_cons, hxm]
    · rw [if_neg hme]
      simp only
      rw [callsOf_cons_call]
      by_cases hxm : m = x
      · subst hxm
        rw [if_pos rfl, ih hnd' _]
        have hnotin : ¬(m ∈ ms ∧ m ∉ (if actFails m eid = true
            then errors ++ [m] else errors)) := fun h => hm h.1
        rw [if_neg hnotin]
        simp [hme]
      · rw [if_neg hxm, ih hnd' _]
        have herr : (x ∈ (if actFails m eid = true then errors ++ [m] else errors))
            ↔ x ∈ errors := by
          split_ifs with haf
          · simp only [List.mem_append, List.mem_singleton]
            constructor
            · rintro (h | h)
              · exact h
              · exact absurd h.symm hxm
            · exact Or.inl
          · exact Iff.rfl
        by_cases hxs : x ∈ ms ∧ x ∉ errors
        · rw [if_pos ⟨hxs.1, fun h => hxs.2 (herr.mp h)⟩]
          rw [if_pos ⟨List.mem_cons_of_mem _ hxs.1, hxs.2⟩]
        · have h2 : ¬(x ∈ ms ∧ x ∉ (if actFails m eid = true
              then errors ++ [m] else errors)) := by
            intro h
            exact hxs ⟨h.1, fun hx => h.2 (herr.mpr hx)⟩
          rw [if_neg h2]
          have h3 : ¬(x ∈ m :: ms ∧ x ∉ errors) := by
            intro h
            rcases List.mem_cons.mp h.1 with h4 | h4
            · exact hxm h4.symm
            · exact hxs ⟨h4, h.2⟩
          rw [if_neg h3]

/-! ## Traversal lemmas for run_iteration_analyzers -/

mutual
theorem procA_visits (actFails : String → Nat → Bool) (replayFails : Nat → Bool)
    (mods : List String) (hr : ∀ e, replayFails e = false) :
    ∀ (a : Action) (errors : List String),
    visitsOf (process_action actFails replayFails mods a errors).1 = preorderA a
  | .mk e f ni nin cs, errors => by
    simp only [process_action, preorderA]
    by_cases hdd : isDrawDispatch f = true
    · simp only [hdd, if_true, hr e, Bool.false_eq_true, if_false]
      simp [callAnalyzers_visits,
        procL_visits actFails replayFails mods hr cs _]
    · simp only [hdd, Bool.false_eq_true, if_false]
      simp [procL_visits actFails replayFails mods hr cs _]

theorem procL_visits (actFails : String → Nat → Bool) (replayFails : Nat → Bool)
    (mods : List String) (hr : ∀ e, replayFails e = false) :
    ∀ (as : List Action) (errors : List String),
    visitsOf (processChildren actFails replayFails mods as errors).1 = preorderL as
  | [], errors => by simp [processChildren, preorderL]
  | a :: as, errors => by
    simp only [processChildren, preorderL]
    simp [procA_visits actFails replayFails mods hr a errors,
      procL_visits actFails replayFails mods hr as _]
end

mutual
theorem procA_replays (actFails : String → Nat → Bool) (replayFails : Nat → Bool)
    (mods : List String) (hr : ∀ e, replayFails e = false) :
    ∀ (a : Action) (errors : List String),
    replaysOf (process_action actFails replayFails mods a errors).1 = ddA a
  | .mk e f ni nin cs, errors => by
    simp only [process_action, ddA]
    by_cases hdd : isDrawDispatch f = true
    · simp only [hdd, if_true, hr e, Bool.false_eq_true, if_false]
      simp [callAnalyzers_replays,
        procL_replays actFails replayFails mods hr cs _]
    · simp only [hdd, Bool.false_eq_true, if_false]
      simp [procL_replays actFails replayFails mods hr cs _]

theorem procL_replays (actFails : String → Nat → Bool) (replayFails : Nat → Bool)
    (mods : List String) (hr : ∀ e, replayFails e = false) :
    ∀ (as : List Action) (errors : List String),
    replaysOf (processChildren actFails replayFails mods as errors).1 = ddL as
  | [], errors => by simp [processChildren, ddL]
  | a :: as, errors => by
    simp only [processChildren, ddL]
    simp [procA_replays actFails replayFails mods hr a errors,
      procL_replays actFails replayFails mods hr as _]
end

mutual
theorem procA_fins (actFails : String → Nat → Bool) (replayFails : Nat → Bool)
    (mods : List String) :
    ∀ (a : Action) (errors : List String),
    finsOf (process_action actFails replayFails mods a errors).1 = []
  | .mk e f ni nin cs, errors => by
    simp only [process_action]
    split_ifs <;>
      simp [callAnalyzers_fins, procL_fins actFails replayFails mods cs]

theorem procL_fins (actFails : String → Nat → Bool) (replayFails : Nat → Bool)
    (mods : List String) :
    ∀ (as : List Action) (errors : List String),
    finsOf (processChildren actFails replayFails mods as errors).1 = []
  | [], errors => by simp [processChildren]
  | a :: as, errors => by
    simp only [processChildren]
    simp [procA_fins actFails replayFails mods a errors,
      procL_fins actFails replayFails mods as _]
end

theorem callsUpToFail_append (actFails : String → Nat → Bool) (x : String)
    (l1 l2 : List Nat) :
    callsUpToFail actFails x (l1 ++ l2)
      = callsUpToFail actFails x l1
        ++ (if l1.any (fun e => actFails x e) = true then []
            else callsUpToFail actFails x l2) := by
  induction l1 with
  | nil => simp [callsUpToFail]
  | cons e es ih =>
    simp only [List.cons_append, callsUpToFail, List.any_cons]
    by_cases hf : actFails x e = true
    · simp [hf]
    · simp [hf, ih]

mutual
theorem procA_spec (actFails : String → Nat → Bool) (replayFails : Nat → Bool)
    (mods : List String) (hr : ∀ e, replayFails e = false) (hnd : mods.Nodup) :
    ∀ (a : Action) (errors : List String),
    (∀ y, y ∈ (process_action actFails replayFails mods a errors).2
      ↔ y ∈ errors ∨ (y ∈ mods ∧ ∃ e ∈ ddA a, actFails y e = true))
    ∧ ∀ x, callsOf x (process_action actFails replayFails mods a errors).1
      = if x ∈ mods ∧ x ∉ errors then callsUpToFail actFails x (ddA a) else []
  | .mk e f ni nin cs, errors => by
    have hL := procL_spec actFails replayFails mods hr hnd cs
    simp only [process_action, ddA]
    by_cases hdd : isDrawDispatch f = true
    · simp only [hdd, if_true, hr e, Bool.false_eq_true, if_false]
      constructor
      · intro y
        rw [(hL _).1 y, callAnalyzers_errors]
        simp only [List.exists_mem_cons_iff]
        generalize (∃ x ∈ ddL cs, actFails y x = true) = PL
        tauto
      · intro x
        rw [callsOf_cons_visit, callsOf_cons_replay, callsOf_append]
        rw [callAnalyzers_calls actFails e x mods hnd errors, (hL _).2 x]
        have herr := callAnalyzers_errors actFails e x mods errors
        simp only [callsUpToFail]
        by_cases hx : x ∈ mods
        · by_cases he : x ∈ errors
          · have h1 : ¬(x ∈ mods ∧ x ∉ errors) := fun h => h.2 he
            have h2 : x ∈ (callAnalyzers actFails e mods errors).2 :=
              herr.mpr (Or.inl he)
            have h3 : ¬(x ∈ mods ∧ x ∉ (callAnalyzers actFails e mods errors).2) :=
              fun h => h.2 h2
            rw [if_neg h1, if_neg h3, if_neg h1]
            simp
          · by_cases haf : actFails x e = true
            · have h2 : x ∈ (callAnalyzers actFails e mods errors).2 :=
                herr.mpr (Or.inr ⟨hx, haf⟩)
              have h3 : ¬(x ∈ mods ∧ x ∉ (callAnalyzers actFails e mods errors).2) :=
                fun h => h.2 h2
              rw [if_pos (⟨hx, he⟩ : x ∈ mods ∧ x ∉ errors), if_neg h3,
                if_pos (⟨hx, he⟩ : x ∈ mods ∧ x ∉ errors), if_pos haf]
              simp
            · have h2 : x ∉ (callAnalyzers actFails e mods errors).2 := by
                intro hmem
                rcases herr.mp hmem with h | h
                · exact he h
                · exact haf h.2
              rw [if_pos (⟨hx, he⟩ : x ∈ mods ∧ x ∉ errors), if_pos ⟨hx, h2⟩,
                if_pos (⟨hx, he⟩ : x ∈ mods ∧ x ∉ errors), if_neg haf]
              simp
        · have h1 : ¬(x ∈ mods ∧ x ∉ errors) := fun h => hx h.1
          have h3 : ¬(x ∈ mods ∧ x ∉ (callAnalyzers actFails e mods errors).2) :=
            fun h => hx h.1
          rw [if_neg h1, if_neg h3, if_neg h1]
          simp
    · simp only [hdd, Bool.false_eq_true, if_false]
      constructor
      · intro y
        exact (hL _).1 y
      · intro x
        rw [callsOf_cons_visit]
        exact (hL _).2 x

theorem procL_spec (actFails : String → Nat → Bool) (replayFails : Nat → Bool)
    (mods : List String) (hr : ∀ e, replayFails e = false) (hnd : mods.Nodup) :
    ∀ (as : List Action) (errors : List String),
    (∀ y, y ∈ (processChildren actFails replayFails mods as errors).2
      ↔ y ∈ errors ∨ (y ∈ mods ∧ ∃ e ∈ ddL as, actFails y e = true))
    ∧ ∀ x, callsOf x (processChildren actFails replayFails mods as errors).1
      = if x ∈ mods ∧ x ∉ errors then callsUpToFail actFails x (ddL as) else []
  | [], errors => by
    simp only [processChildren, ddL]
    constructor
    · intro y
      simp
    · intro x
      simp [callsUpToFail]
  | a :: as, errors => by
    have hA := procA_spec actFails replayFails mods hr hnd a errors
    have hL := procL_spec actFails replayFails mods hr hnd as
      (process_action actFails replayFails mods a errors).2
    simp only [processChildren, ddL]
    have hsplit : ∀ y, (∃ e ∈ ddA a ++ ddL as, actFails y e = true)
        ↔ ((∃ e ∈ ddA a, actFails y e = true)
           ∨ (∃ e ∈ ddL as, actFails y e = true)) := by
      intro y
      constructor
      · rintro ⟨e, he, hf⟩
        rcases List.mem_append.mp he with h | h
        · exact Or.inl ⟨e, h, hf⟩
        · exact Or.inr ⟨e, h, hf⟩
      · rintro (⟨e, he, hf⟩ | ⟨e, he, hf⟩)
        · exact ⟨e, List.mem_append_left _ he, hf⟩
        · exact ⟨e, List.mem_append_right _ he, hf⟩
    constructor
    · intro y
      rw [hL.1 y, hA.1 y, hsplit y]
      generalize (∃ e ∈ ddA a, actFails y e = true) = PA
      generalize (∃ e ∈ ddL as, actFails y e = true) = PL
      tauto
    · intro x
      rw [callsOf_append, hA.2 x, hL.2 x]
      rw [callsUpToFail_append]
      by_cases hx : x ∈ mods ∧ x ∉ errors
      · rw [if_pos hx, if_pos hx]
        by_cases hfail : (ddA a).any (fun e => actFails x e) = true
        · have h2 : x ∈ (process_action actFails replayFails mods a errors).2 := by
            rw [hA.1 x]
            exact Or.inr ⟨hx.1, List.any_eq_true.mp hfail⟩
          have h3 : ¬(x ∈ mods
              ∧ x ∉ (process_action actFails replayFails mods a errors).2) :=
            fun h => h.2 h2
          rw [if_neg h3, if_pos hfail]
        · have h2 : x ∉ (process_action actFails replayFails mods a errors).2 := by
            intro hmem
            rcases (hA.1 x).mp hmem with h | h
            · exact hx.2 h
            · exact hfail (List.any_eq_true.mpr h.2)
          rw [if_pos ⟨hx.1, h2⟩, if_neg hfail]
      · rw [if_neg hx, if_neg hx]
        have h3 : ¬(x ∈ mods
            ∧ x ∉ (process_action actFails replayFails mods a errors).2) := by
          intro h
          refine hx ⟨h.1, fun he => h.2 ?_⟩
          rw [hA.1 x]
          exact Or.inl he
        rw [if_neg h3]
        simp
end

/-! ## Finalize-loop and assorted helper lemmas -/

theorem finalizeLoop_visits (mods errors : List String) :
    visitsOf (finalizeLoop mods errors) = [] := by
  induction mods with
  | nil => rfl
  | cons m ms ih =>
    simp only [finalizeLoop, List.filterMap_cons] at ih ⊢
    by_cases hm : m ∈ errors
    · simpa [hm] using ih
    · simpa [hm] using ih

theorem finalizeLoop_replays (mods errors : List String) :
    replaysOf (finalizeLoop mods errors) = [] := by
  induction mods with
  | nil => rfl
  | cons m ms ih =>
    simp only [finalizeLoop, List.filterMap_cons] at ih ⊢
    by_cases hm : m ∈ errors
    · simpa [hm] using ih
    · simpa [hm] using ih

theorem finalizeLoop_calls (x : String) (mods errors : List String) :
    callsOf x (finalizeLoop mods errors) = [] := by
  induction mods with
  | nil => rfl
  | cons m ms ih =>
    simp only [finalizeLoop, List.filterMap_cons] at ih ⊢
    by_cases hm : m ∈ errors
    · simpa [hm] using ih
    · simpa [hm] using ih

theorem finalizeLoop_nil_errors (mods : List String) :
    finalizeLoop mods [] = mods.map Ev.fin := by
  induction mods with
  | nil => rfl
  | cons m ms ih =>
    simp only [finalizeLoop, List.filterMap_cons] at ih ⊢
    simpa using ih

theorem finsOf_map_fin (ms : List String) : finsOf (ms.map Ev.fin) = ms := by
  induction ms with
  | nil => rfl
  | cons m ms ih => simp [ih]

theorem callsUpToFail_no_fail (actFails : String → Nat → Bool) (x : String)
    (haf : ∀ e, actFails x e = false) : ∀ l : List Nat,
    callsUpToFail actFails x l = l := by
  intro l
  induction l with
  | nil => rfl
  | cons e es ih => simp [callsUpToFail, haf e, ih]

theorem callsUpToFail_subset (actFails : String → Nat → Bool) (x : String)
    (e : Nat) : ∀ l : List Nat, e ∈ callsUpToFail actFails x l → e ∈ l := by
  intro l
  induction l with
  | nil => intro h; simp [callsUpToFail] at h
  | cons e2 es ih =>
    intro h
    simp only [callsUpToFail] at h
    rcases List.mem_cons.mp h with h1 | h1
    · exact h1 ▸ List.mem_cons_self _ _
    · split_ifs at h1 with hf
      · simp at h1
      · exact List.mem_cons_of_mem _ (ih h1)

theorem call_mem_callsOf (m : String) (e : Nat) :
    ∀ t : List Ev, Ev.call m e ∈ t → e ∈ callsOf m t := by
  intro t
  induction t with
  | nil => intro h; simp at h
  | cons ev t ih =>
    intro h
    rcases List.mem_cons.mp h with h1 | h1
    · rw [← h1, callsOf_cons_call, if_pos rfl]
      exact List.mem_cons_self _ _
    · clear h
      cases ev with
      | visit i => simpa using ih h1
      | replay i => simpa using ih h1
      | fin m2 => simpa using ih h1
      | call m2 i =>
        rw [callsOf_cons_call]
        split_ifs
        · exact List.mem_cons_of_mem _ (ih h1)
        · exact ih h1

/-! ## C1: one shared traversal -/

/-- C1: with no timeout, no replay error and no analyzer error, a run of
`run_iteration_analyzers` visits every node reachable from the root actions
exactly once (the visit trace is the preorder listing of the forest), calls
each enabled iteration analyzer's `analyze_action` exactly once per visited
draw/dispatch action, and appends exactly one `finalize()` per analyzer
after the traversal. -/
theorem unified_traversal_single_pass (actFails : String → Nat → Bool)
    (replayFails : Nat → Bool) (mods : List String) (roots : List Action)
    (m : String) (hr : ∀ e, replayFails e = false)
    (haf : ∀ x e, actFails x e = false) (hnd : mods.Nodup) (hm : m ∈ mods) :
    visitsOf (run_iteration_analyzers actFails replayFails mods roots).1
      = preorderL roots
    ∧ callsOf m (run_iteration_analyzers actFails replayFails mods roots).1
      = ddL roots
    ∧ finsOf (run_iteration_analyzers actFails replayFails mods roots).1 = mods
    ∧ (run_iteration_analyzers actFails replayFails mods roots).1
      = (processChildren actFails replayFails mods roots []).1
        ++ mods.map Ev.fin := by
  have hspec := procL_spec actFails replayFails mods hr hnd roots []
  have herrnil : (processChildren actFails replayFails mods roots []).2 = [] := by
    rw [List.eq_nil_iff_forall_not_mem]
    intro x hxm
    rcases (hspec.1 x).mp hxm with h | h
    · simp at h
    · obtain ⟨e, _, hf⟩ := h.2
      rw [haf x e] at hf
      exact Bool.false_ne_true hf
  have hfl : finalizeLoop mods
      (processChildren actFails replayFails mods roots []).2
      = mods.map Ev.fin := by
    rw [herrnil, finalizeLoop_nil_errors]
  simp only [run_iteration_analyzers]
  refine ⟨?_, ?_, ?_, ?_⟩
  · rw [visitsOf_append, procL_visits actFails replayFails mods hr roots [],
      finalizeLoop_visits, List.append_nil]
  · rw [callsOf_append, finalizeLoop_calls, List.append_nil, hspec.2 m]
    rw [if_pos ⟨hm, List.not_mem_nil m⟩]
    exact callsUpToFail_no_fail actFails m (haf m) (ddL roots)
  · rw [finsOf_append, procL_fins actFails replayFails mods roots [],
      List.nil_append, hfl, finsOf_map_fin]
  · rw [hfl]

/-- Witness for C1: three iteration modules over a two-level tree (a marker
with a draw child and a clear child), with no failures anywhere. -/
theorem unified_traversal_single_pass_witness :
    ((["vertex_attrs", "shader_bindings", "overdraw"] : List String).Nodup
      ∧ "overdraw" ∈ (["vertex_attrs", "shader_bindings", "overdraw"] : List String))
    ∧ (visitsOf (run_iteration_analyzers (fun _ _ => false) (fun _ => false)
        ["vertex_attrs", "shader_bindings", "overdraw"]
        [.mk 1 ⟨false, false, false, false, true⟩ none none
          [.mk 2 ⟨true, false, false, false, false⟩ (some 3) (some 1) [],
           .mk 3 ⟨false, false, true, false, false⟩ none none []]]).1
      = preorderL
          [.mk 1 ⟨false, false, false, false, true⟩ none none
            [.mk 2 ⟨true, false, false, false, false⟩ (some 3) (some 1) [],
             .mk 3 ⟨false, false, true, false, false⟩ none none []]]
    ∧ callsOf "overdraw" (run_iteration_analyzers (fun _ _ => false) (fun _ => false)
        ["vertex_attrs", "shader_bindings", "overdraw"]
        [.mk 1 ⟨false, false, false, false, true⟩ none none
          [.mk 2 ⟨true, false, false, false, false⟩ (some 3) (some 1) [],
           .mk 3 ⟨false, false, true, false, false⟩ none none []]]).1
      = ddL [.mk 1 ⟨false, false, false, false, true⟩ none none
          [.mk 2 ⟨true, false, false, false, false⟩ (some 3) (some 1) [],
           .mk 3 ⟨false, false, true, false, false⟩ none none []]]
    ∧ finsOf (run_iteration_analyzers (fun _ _ => false) (fun _ => false)
        ["vertex_attrs", "shader_bindings", "overdraw"]
        [.mk 1 ⟨false, false, false, false, true⟩ none none
          [.mk 2 ⟨true, false, false, false, false⟩ (some 3) (some 1) [],
           .mk 3 ⟨false, false, true, false, false⟩ none none []]]).1
      = ["vertex_attrs", "shader_bindings", "overdraw"]
    ∧ (run_iteration_analyzers (fun _ _ => false) (fun _ => false)
        ["vertex_attrs", "shader_bindings", "overdraw"]
        [.mk 1 ⟨false, false, false, false, true⟩ none none
          [.mk 2 ⟨true, false, false, false, false⟩ (some 3) (some 1) [],
           .mk 3 ⟨false, false, true, false, false⟩ none none []]]).1
      = (processChildren (fun _ _ => false) (fun _ => false)
          ["vertex_attrs", "shader_bindings", "overdraw"]
          [.mk 1 ⟨false, false, false, false, true⟩ none none
            [.mk 2 ⟨true, false, false, false, false⟩ (some 3) (some 1) [],
             .mk 3 ⟨false, false, true, false, false⟩ none none []]] []).1
        ++ (["vertex_attrs", "shader_bindings", "overdraw"] : List String).map
             Ev.fin) :=
  ⟨⟨by decide, by decide⟩,
    unified_traversal_single_pass (fun _ _ => false) (fun _ => false)
      ["vertex_attrs", "shader_bindings", "overdraw"]
      [.mk 1 ⟨false, false, false, false, true⟩ none none
        [.mk 2 ⟨true, false, false, false, false⟩ (some 3) (some 1) [],
         .mk 3 ⟨false, false, true, false, false⟩ none none []]]
      "overdraw" (fun _ => rfl) (fun _ _ => rfl) (by decide) (by decide)⟩

/-! ## C2: replay exactly at draw/dispatch actions -/

/-- C2: with no timeout and no replay error, the sequence of replay requests
(`SetFrameEvent` + `GetPipelineState`) issued during the traversal is
exactly the sequence of draw/dispatch event ids in visit order (so an action
is replayed to if and only if its flags contain Drawcall or Dispatch); every
node, draw or not, is still recursed into (the visit trace is the full
preorder), and `analyze_action` is only ever invoked at draw/dispatch event
ids. -/
theorem replay_only_for_draw_dispatch (actFails : String → Nat → Bool)
    (replayFails : Nat → Bool) (mods : List String) (roots : List Action)
    (m : String) (e : Nat) (hr : ∀ e', replayFails e' = false)
    (hnd : mods.Nodup) :
    replaysOf (run_iteration_analyzers actFails replayFails mods roots).1
      = ddL roots
    ∧ visitsOf (run_iteration_analyzers actFails replayFails mods roots).1
      = preorderL roots
    ∧ (Ev.call m e ∈ (run_iteration_analyzers actFails replayFails mods roots).1
       → e ∈ ddL roots) := by
  have hspec := procL_spec actFails replayFails mods hr hnd roots []
  simp only [run_iteration_analyzers]
  refine ⟨?_, ?_, ?_⟩
  · rw [replaysOf_append, procL_replays actFails replayFails mods hr roots [],
      finalizeLoop_replays, List.append_nil]
  · rw [visitsOf_append, procL_visits actFails replayFails mods hr roots [],
      finalizeLoop_visits, List.append_nil]
  · intro hmem
    have hc := call_mem_callsOf m e _ hmem
    rw [callsOf_append, finalizeLoop_calls, List.append_nil, hspec.2 m] at hc
    by_cases hP : m ∈ mods ∧ m ∉ ([] : List String)
    · rw [if_pos hP] at hc
      exact callsUpToFail_subset actFails m e _ hc
    · rw [if_neg hP] at hc
      simp at hc

/-- Witness for C2: the same two-level tree; the clear node (event 3) and
marker node (event 1) are visited but only the draw (event 2) is replayed
to. -/
theorem replay_only_for_draw_dispatch_witness :
    (["vertex_attrs", "shader_bindings", "overdraw"] : List String).Nodup
    ∧ (replaysOf (run_iteration_analyzers (fun _ _ => false) (fun _ => false)
        ["vertex_attrs", "shader_bindings", "overdraw"]
        [.mk 1 ⟨false, false, false, false, true⟩ none none
          [.mk 2 ⟨true, false, false, false, false⟩ (some 3) (some 1) [],
           .mk 3 ⟨false, false, true, false, false⟩ none none []]]).1
      = ddL [.mk 1 ⟨false, false, false, false, true⟩ none none
          [.mk 2 ⟨true, false, false, false, false⟩ (some 3) (some 1) [],
           .mk 3 ⟨false, false, true, false, false⟩ none none []]]
    ∧ visitsOf (run_iteration_analyzers (fun _ _ => false) (fun _ => false)
        ["vertex_attrs", "shader_bindings", "overdraw"]
        [.mk 1 ⟨false, false, false, false, true⟩ none none
          [.mk 2 ⟨true, false, false, false, false⟩ (some 3) (some 1) [],
           .mk 3 ⟨false, false, true, false, false⟩ none none []]]).1
      = preorderL [.mk 1 ⟨false, false, false, false, true⟩ none none
          [.mk 2 ⟨true, false, false, false, false⟩ (some 3) (some 1) [],
           .mk 3 ⟨false, false, true, false, false⟩ none none []]]
    ∧ (Ev.call "overdraw" 3
        ∈ (run_iteration_analyzers (fun _ _ => false) (fun _ => false)
            ["vertex_attrs", "shader_bindings", "overdraw"]
            [.mk 1 ⟨false, false, false, false, true⟩ none none
              [.mk 2 ⟨true, false, false, false, false⟩ (some 3) (some 1) [],
               .mk 3 ⟨false, false, true, false, false⟩ none none []]]).1
       → 3 ∈ ddL [.mk 1 ⟨false, false, false, false, true⟩ none none
          [.mk 2 ⟨true, false, false, false, false⟩ (some 3) (some 1) [],
           .mk 3 ⟨false, false, true, false, false⟩ none none []]])) :=
  ⟨by decide,
    replay_only_for_draw_dispatch (fun _ _ => false) (fun _ => false)
      ["vertex_attrs", "shader_bindings", "overdraw"]
      [.mk 1 ⟨false, false, false, false, true⟩ none none
        [.mk 2 ⟨true, false, false, false, false⟩ (some 3) (some 1) [],
         .mk 3 ⟨false, false, true, false, false⟩ none none []]]
      "overdraw" 3 (fun _ => rfl) (by decide)⟩

/-! ## C8: module failures are isolated -/

theorem run_static_mem (staticFails : String → Bool) (msta : String) :
    ∀ analyzers : List (String × Bool), (msta, false) ∈ analyzers →
    (msta, if staticFails msta then Status.error else Status.success)
      ∈ run_static_analyzers staticFails analyzers := by
  intro analyzers
  induction analyzers with
  | nil => intro h; simp at h
  | cons a rest ih =>
    intro h
    obtain ⟨am, ab⟩ := a
    rcases List.mem_cons.mp h with h1 | h1
    · rw [Prod.mk.injEq] at h1
      rw [run_static_analyzers, ← h1.1, ← h1.2]
      simp
    · rw [run_static_analyzers]
      cases ab with
      | true => simpa using ih h1
      | false => exact List.mem_cons_of_mem _ (ih h1)

/-- C8: module failures are isolated.  In the static phase every
non-iteration analyzer gets its own result entry (`success`, or `error`
exactly when its `analyze()` raises), independently of the other modules.
In the traversal, an iteration analyzer whose `analyze_action` raises is
called on every draw/dispatch event up to and including its first failing
one and skipped afterwards (`callsUpToFail`); the traversal itself still
visits every node, and the module is in the recorded error set exactly when
some visited draw/dispatch event makes it fail.  No exception escapes either
phase (both are modelled as total functions recording errors). -/
theorem scheduler_error_isolation (staticFails : String → Bool)
    (analyzers : List (String × Bool)) (msta : String)
    (actFails : String → Nat → Bool) (replayFails : Nat → Bool)
    (mods : List String) (roots : List Action) (m : String)
    (hsta : (msta, false) ∈ analyzers) (hr : ∀ e, replayFails e = false)
    (hnd : mods.Nodup) (hm : m ∈ mods) :
    ((msta, if staticFails msta then Status.error else Status.success)
      ∈ run_static_analyzers staticFails analyzers)
    ∧ visitsOf (run_iteration_analyzers actFails replayFails mods roots).1
      = preorderL roots
    ∧ callsOf m (run_iteration_analyzers actFails replayFails mods roots).1
      = callsUpToFail actFails m (ddL roots)
    ∧ (m ∈ (run_iteration_analyzers actFails replayFails mods roots).2
       ↔ (ddL roots).any (fun e => actFails m e) = true) := by
  have hspec := procL_spec actFails replayFails mods hr hnd roots []
  refine ⟨run_static_mem staticFails msta analyzers hsta, ?_, ?_, ?_⟩
  · simp only [run_iteration_analyzers]
    rw [visitsOf_append, procL_visits actFails replayFails mods hr roots [],
      finalizeLoop_visits, List.append_nil]
  · simp only [run_iteration_analyzers]
    rw [callsOf_append, finalizeLoop_calls, List.append_nil, hspec.2 m]
    rw [if_pos ⟨hm, List.not_mem_nil m⟩]
  · simp only [run_iteration_analyzers]
    rw [hspec.1 m, List.any_eq_true]
    simp [hm]

/-- Witness for C8: the static module `"memory"` fails while
`"basic_stats"` succeeds; during the traversal `"overdraw"` fails at the
draw (event 2) while the other two modules never fail. -/
theorem scheduler_error_isolation_witness :
    (((("memory" : String), false)
        ∈ ([("basic_stats", false), ("memory", false), ("vertex_attrs", true),
            ("shader_bindings", true), ("overdraw", true)] : List (String × Bool)))
      ∧ (["vertex_attrs", "shader_bindings", "overdraw"] : List String).Nodup
      ∧ "overdraw" ∈ (["vertex_attrs", "shader_bindings", "overdraw"] : List String))
    ∧ ((("memory" : String),
        if (fun m => m == "memory") "memory" then Status.error else Status.success)
          ∈ run_static_analyzers (fun m => m == "memory")
              [("basic_stats", false), ("memory", false), ("vertex_attrs", true),
               ("shader_bindings", true), ("overdraw", true)]
    ∧ visitsOf (run_iteration_analyzers (fun m e => m == "overdraw" && e == 2)
        (fun _ => false) ["vertex_attrs", "shader_bindings", "overdraw"]
        [.mk 1 ⟨false, false, false, false, true⟩ none none
          [.mk 2 ⟨true, false, false, false, false⟩ (some 3) (some 1) [],
           .mk 3 ⟨false, false, true, false, false⟩ none none []]]).1
      = preorderL [.mk 1 ⟨false, false, false, false, true⟩ none none
          [.mk 2 ⟨true, false, false, false, false⟩ (some 3) (some 1) [],
           .mk 3 ⟨false, false, true, false, false⟩ none none []]]
    ∧ callsOf "overdraw" (run_iteration_analyzers
        (fun m e => m == "overdraw" && e == 2) (fun _ => false)
        ["vertex_attrs", "shader_bindings", "overdraw"]
        [.mk 1 ⟨false, false, false, false, true⟩ none none
          [.mk 2 ⟨true, false, false, false, false⟩ (some 3) (some 1) [],
           .mk 3 ⟨false, false, true, false, false⟩ none none []]]).1
      = callsUpToFail (fun m e => m == "overdraw" && e == 2) "overdraw"
          (ddL [.mk 1 ⟨false, false, false, false, true⟩ none none
            [.mk 2 ⟨true, false, false, false, false⟩ (some 3) (some 1) [],
             .mk 3 ⟨false, false, true, false, false⟩ none none []]])
    ∧ ("overdraw" ∈ (run_iteration_analyzers
          (fun m e => m == "overdraw" && e == 2) (fun _ => false)
          ["vertex_attrs", "shader_bindings", "overdraw"]
          [.mk 1 ⟨false, false, false, false, true⟩ none none
            [.mk 2 ⟨true, false, false, false, false⟩ (some 3) (some 1) [],
             .mk 3 ⟨false, false, true, false, false⟩ none none []]]).2
        ↔ ((ddL [.mk 1 ⟨false, false, false, false, true⟩ none none
              [.mk 2 ⟨true, false, false, false, false⟩ (some 3) (some 1) [],
               .mk 3 ⟨false, false, true, false, false⟩ none none []]]).any
            (fun e => (fun m e => m == "overdraw" && e == 2) "overdraw" e))
          = true)) :=
  ⟨⟨by decide, by decide, by decide⟩,
    scheduler_error_isolation (fun m => m == "memory")
      [("basic_stats", false), ("memory", false), ("vertex_attrs", true),
       ("shader_bindings", true), ("overdraw", true)] "memory"
      (fun m e => m == "overdraw" && e == 2) (fun _ => false)
      ["vertex_attrs", "shader_bindings", "overdraw"]
      [.mk 1 ⟨false, false, false, false, true⟩ none none
        [.mk 2 ⟨true, false, false, false, false⟩ (some 3) (some 1) [],
         .mk 3 ⟨false, false, true, false, false⟩ none none []]]
      "overdraw" (by decide) (fun _ => rfl) (by decide) (by decide)⟩

end RDA
